import Mathlib

/-!
Verification of the LPub3D meta-command parser and PLI/BOM layout engine.

This file gives a shallow embedding, in Lean 4, of the parts of
`mainApp/substitutepartdialog.cpp` (the meta-command leaf/branch parser and
formatter classes) and `mainApp/pli.cpp` (the parts-list layout engine) that
the specification claims talk about, together with theorems settling those
claims.

Conventions of the embedding:
* C++ `int` is modelled as `Int` (no overflow is exercised by any claim),
  counters that are provably non-negative are modelled as `Nat`;
* C++ `float`/`qreal` values that the claims exercise are exact decimal
  literals, modelled as `Rat`;
* `QStringList` is `List String`; an out-of-bounds element access (undefined
  behaviour in Qt) is modelled by returning `none` from an `Option`-valued
  function;
* mutation of a leaf object is modelled by explicit state passing: a parse
  function takes the leaf value and returns the result code together with
  the new leaf value.
-/

/- ===== basic string-to-number conversions (QString::toInt / toFloat) ===== -/

/-- Value of a list of decimal digit characters; `none` if empty or if any
character is not a digit.  Mirrors the digit scan inside `QString::toInt`. -/
def digitsVal : List Char → Option Nat
  | [] => none
  | cs =>
    if cs.all Char.isDigit then
      some (cs.foldl (fun acc c => acc * 10 + (c.toNat - 48)) 0)
    else
      none

/-- `QString::toInt` with base 10: optional sign, then at least one digit,
whole string must be consumed. -/
def strToInt (s : String) : Option Int :=
  match s.data with
  | '+' :: rest => (digitsVal rest).map (fun n => (n : Int))
  | '-' :: rest => (digitsVal rest).map (fun n => -(n : Int))
  | rest => (digitsVal rest).map (fun n => (n : Int))

/-- An exact decimal value `m / 10^e`: the model of the `float`/`qreal`
values the directives carry.  (Plain decimal literals are modelled exactly;
a pair representation is used instead of `Rat` so that every operation
reduces inside the kernel.) -/
structure Dec where
  m : Int
  e : Nat
deriving DecidableEq, Repr

/-- Strict order on decimals, by cross-multiplication. -/
def Dec.ltB (a b : Dec) : Bool :=
  decide (a.m * 10 ^ b.e < b.m * 10 ^ a.e)

/-- Sum of two decimals. -/
def Dec.add (a b : Dec) : Dec :=
  ⟨a.m * 10 ^ b.e + b.m * 10 ^ a.e, a.e + b.e⟩

/-- A decimal from an integer. -/
def Dec.ofInt (x : Int) : Dec :=
  ⟨x, 0⟩

/-- Truncation toward zero, the semantics of a C cast from a floating
value to `int`. -/
def Dec.trunc (d : Dec) : Int :=
  d.m.tdiv (10 ^ d.e)

/-- Whether two decimals denote the same value. -/
def Dec.eqv (a b : Dec) : Bool :=
  decide (a.m * 10 ^ b.e = b.m * 10 ^ a.e)

/-- Value of an unsigned decimal-fraction token `intPart.fracPart`.
Either part may be empty but not both. -/
def fracVal (ip fp : List Char) : Option Dec :=
  if ip.isEmpty ∧ fp.isEmpty then none
  else if ip.all Char.isDigit ∧ fp.all Char.isDigit then
    some ⟨((ip ++ fp).foldl (fun acc c => acc * 10 + (c.toNat - 48)) 0 : Nat), fp.length⟩
  else none

/-- `QString::toFloat` restricted to plain decimal literals (optional sign,
digits, optional fraction): every numeric token exercised by the claims has
this shape; exponent forms are not needed and not modelled. -/
def strToFloat (s : String) : Option Dec :=
  let core : List Char → Option Dec := fun cs =>
    match cs.splitOn '.' with
    | [ip] => fracVal ip []
    | [ip, fp] => fracVal ip fp
    | _ => none
  match s.data with
  | '+' :: rest => core rest
  | '-' :: rest => (core rest).map (fun q => ⟨-q.m, q.e⟩)
  | rest => core rest

/-- Value of a hexadecimal digit character, `none` otherwise. -/
def hexDigitVal (c : Char) : Option Nat :=
  if c.isDigit then some (c.toNat - 48)
  else if 'a' ≤ c ∧ c ≤ 'f' then some (c.toNat - 87)
  else if 'A' ≤ c ∧ c ≤ 'F' then some (c.toNat - 55)
  else none

/-- `QString::toUInt` with base 16: optional `0x` prefix, hex digits, result
must fit an unsigned 32-bit integer. -/
def strToUIntHex (s : String) : Option Nat :=
  let go : List Char → Option Nat := fun cs =>
    if cs.isEmpty then none
    else
      cs.foldl (fun acc c =>
        match acc, hexDigitVal c with
        | some a, some d => some (a * 16 + d)
        | _, _ => none) (some 0)
  let v :=
    match s.data with
    | '0' :: 'x' :: rest => go rest
    | '0' :: 'X' :: rest => go rest
    | rest => go rest
  match v with
  | some n => if n < 2 ^ 32 then some n else none
  | none => none

/- ===== result codes and source locations ===== -/

/-- Result codes returned by the meta parsers.  The source has one enum
value per structural action; the claims only distinguish success, plain
failure and range failure, so action codes are carried as a numbered
constructor. -/
inductive Rc where
  | OkRc : Rc
  | FailureRc : Rc
  | RangeErrorRc : Rc
  | ActionRc : Nat → Rc
deriving DecidableEq, Repr

export Rc (OkRc FailureRc RangeErrorRc)

/-- A source location: model name and line number (`Where` in the source). -/
structure SrcWhere where
  modelName : String
  lineNumber : Int
deriving DecidableEq, Repr

/-- `LeafMeta::format`: preamble, then an optional `LOCAL ` or `GLOBAL `
marker, then the leaf-specific suffix. -/
def leafFormat (preamble : String) (isLocal isGlobal : Bool) (suffix : String) : String :=
  preamble ++ (if isLocal then "LOCAL " else if isGlobal then "GLOBAL " else "") ++ suffix

/-- Split a string at every occurrence of a separator character
(`QString::split`; yields `[""]` on the empty string). -/
def splitChar (sep : Char) (s : String) : List String :=
  (s.data.splitOn sep).map (fun cs => String.mk cs)

/-- Split a formatted directive tail back into tokens, dropping empty
pieces: the tokenization a re-parse of the formatted text performs. -/
def tokenizeTail (s : String) : List String :=
  (splitChar ' ' s).filter (fun t => t ≠ "")

/- ===== IntMeta ===== -/

/-- State of an `IntMeta` leaf: two value slots (index 0 = global/default,
index 1 = local override), matching `_value[2]`, the corresponding
source-location slots `_here[2]`, the scope flags, the configured range and
the configured success return code. -/
structure IntMeta where
  value0 : Int
  value1 : Int
  here0 : SrcWhere
  here1 : SrcWhere
  pushed : Bool
  global : Bool
  vmin : Int
  vmax : Int
  rc : Rc
  preamble : String
  base : Nat
deriving DecidableEq, Repr

/-- Write `_value[pushed]`. -/
def IntMeta.setValueActive (m : IntMeta) (v : Int) : IntMeta :=
  if m.pushed then { m with value1 := v } else { m with value0 := v }

/-- Write `_here[pushed]`. -/
def IntMeta.setHereActive (m : IntMeta) (w : SrcWhere) : IntMeta :=
  if m.pushed then { m with here1 := w } else { m with here0 := w }

/-- Read `_value[pushed]`. -/
def IntMeta.valueActive (m : IntMeta) : Int :=
  if m.pushed then m.value1 else m.value0

/-- `IntMeta::parse`: exactly one remaining token, which must convert as an
integer and lie inside the configured range.  The emptiness comparison
`index == argv.size() - 1` is done in C `int` arithmetic. -/
def IntMeta.parse (m : IntMeta) (argv : List String) (index : Nat) (here : SrcWhere) :
    Rc × IntMeta :=
  if (index : Int) = (argv.length : Int) - 1 then
    match strToInt (argv.getD index "") with
    | some v =>
      if v < m.vmin ∨ v > m.vmax then (RangeErrorRc, m)
      else (m.rc, (m.setValueActive v).setHereActive here)
    | none => (FailureRc, m)
  else (FailureRc, m)

/-- `IntMeta::format`.  The source reads
`QString foo; foo.arg(_value[pushed],0,base);` — `QString::arg` returns a
new string and does not modify the receiver, so the computed text is
discarded and the suffix stays empty. -/
def IntMeta.format (m : IntMeta) (isLocal isGlobal : Bool) : String :=
  leafFormat m.preamble isLocal isGlobal ""

/- ===== FloatMeta ===== -/

/-- State of a `FloatMeta` leaf, layout as for `IntMeta` with a rational
value. -/
structure FloatMeta where
  value0 : Dec
  value1 : Dec
  here0 : SrcWhere
  here1 : SrcWhere
  pushed : Bool
  global : Bool
  vmin : Dec
  vmax : Dec
  rc : Rc
  preamble : String
deriving DecidableEq, Repr

/-- Write `_value[pushed]`. -/
def FloatMeta.setValueActive (m : FloatMeta) (v : Dec) : FloatMeta :=
  if m.pushed then { m with value1 := v } else { m with value0 := v }

/-- Write `_here[pushed]`. -/
def FloatMeta.setHereActive (m : FloatMeta) (w : SrcWhere) : FloatMeta :=
  if m.pushed then { m with here1 := w } else { m with here0 := w }

/-- Modelled from the spec: the `value()` accessor of the leaf lives in the
missing header `meta.h`; per the spec, value queries resolve against the
currently active slot (`_value[pushed]`). -/
def FloatMeta.valueActive (m : FloatMeta) : Dec :=
  if m.pushed then m.value1 else m.value0

/-- `FloatMeta::parse`: one remaining token, full-string float conversion,
range check. -/
def FloatMeta.parse (m : FloatMeta) (argv : List String) (index : Nat) (here : SrcWhere) :
    Rc × FloatMeta :=
  if (index : Int) = (argv.length : Int) - 1 then
    match strToFloat (argv.getD index "") with
    | some v =>
      if Dec.ltB v m.vmin ∨ Dec.ltB m.vmax v then (RangeErrorRc, m)
      else (m.rc, (m.setValueActive v).setHereActive here)
    | none => (FailureRc, m)
  else (FailureRc, m)

/- ===== BranchMeta dispatch (specialised to one FloatMeta child) ===== -/

/-- Whether `pat` occurs as a contiguous substring of `s`: the effect of
`s.contains(QRegExp(pat))` for a pattern without regular-expression
metacharacters (the fallback child lookup of `BranchMeta::parse`). -/
def hasSubstr (pat s : String) : Bool :=
  (List.range (s.length + 1)).any (fun i => pat.data.isPrefixOf (s.data.drop i))

/-- `BranchMeta::parse` for a branch owning a single `FloatMeta` child under
keyword `key`: exact keyword match first with optional `LOCAL`/`GLOBAL`
marker consumption, then the pattern-based fallback; dispatches to
`FloatMeta.parse`. -/
def branchParseFloat (key : String) (child : FloatMeta) (argv : List String)
    (index : Nat) (here : SrcWhere) : Rc × FloatMeta :=
  if index < argv.length then
    if argv.getD index "" = key then
      -- explicit match
      let st :=
        if (argv.length : Int) - (index : Int) > 1 then
          if argv.getD (index + 1) "" = "LOCAL" then
            ({ child with pushed := true }, 2)
          else if argv.getD (index + 1) "" = "GLOBAL" then
            ({ child with global := true }, 2)
          else (child, 1)
        else (child, 1)
      let child := st.1
      let offset := st.2
      if (argv.length : Int) - (index : Int) > 1 ∧ index + offset ≥ argv.length then
        (FailureRc, child)
      else
        child.parse argv (index + offset) here
    else if (argv.length : Int) - (index : Int) > 1 then
      -- pattern fallback
      let isLocal := argv.getD index "" = "LOCAL"
      let isGlobal := argv.getD index "" = "GLOBAL"
      let offset : Nat := if isLocal ∨ isGlobal then 1 else 0
      if index + offset < argv.length then
        if hasSubstr key (argv.getD (index + offset) "") then
          let child := { child with pushed := isLocal, global := isGlobal }
          child.parse argv (index + offset) here
        else (FailureRc, child)
      else (FailureRc, child)
    else (FailureRc, child)
  else (FailureRc, child)

/- ===== PlacementMeta ===== -/

/-- The 25-row `placementOptions` table: token triple
(placement, justification, preposition) per rectangular-zone index. -/
def placementOptions : List (String × String × String) :=
  [ ("TOP_LEFT",    "",       "OUTSIDE"),
    ("TOP",         "LEFT",   "OUTSIDE"),
    ("TOP",         "CENTER", "OUTSIDE"),
    ("TOP",         "RIGHT",  "OUTSIDE"),
    ("TOP_RIGHT",   "",       "OUTSIDE"),
    ("LEFT",        "TOP",    "OUTSIDE"),
    ("TOP_LEFT",    "",       "INSIDE"),
    ("TOP",         "",       "INSIDE"),
    ("TOP_RIGHT",   "",       "INSIDE"),
    ("RIGHT",       "TOP",    "OUTSIDE"),
    ("LEFT",        "CENTER", "OUTSIDE"),
    ("LEFT",        "",       "INSIDE"),
    ("CENTER",      "",       "INSIDE"),
    ("RIGHT",       "",       "INSIDE"),
    ("RIGHT",       "CENTER", "OUTSIDE"),
    ("LEFT",        "BOTTOM", "OUTSIDE"),
    ("BOTTOM_LEFT", "",       "INSIDE"),
    ("BOTTOM",      "",       "INSIDE"),
    ("BOTTOM_RIGHT","",       "INSIDE"),
    ("RIGHT",       "BOTTOM", "OUTSIDE"),
    ("BOTTOM_LEFT", "",       "OUTSIDE"),
    ("BOTTOM",      "LEFT",   "OUTSIDE"),
    ("BOTTOM",      "CENTER", "OUTSIDE"),
    ("BOTTOM",      "RIGHT",  "OUTSIDE"),
    ("BOTTOM_RIGHT","",       "OUTSIDE") ]

/-- The 25-row `placementDecode` table.  `PlacementEnc` codes: TopLeft 0,
Top 1, TopRight 2, Right 3, BottomRight 4, Bottom 5, BottomLeft 6, Left 7,
Center 8.  `PrepositionEnc` codes: Inside 0, Outside 1. -/
def placementDecode : List (Int × Int × Int) :=
  [ (0, 8, 1), (1, 7, 1), (1, 8, 1), (1, 3, 1), (2, 8, 1),
    (7, 1, 1), (0, 8, 0), (1, 8, 0), (2, 8, 0), (3, 1, 1),
    (7, 8, 1), (7, 8, 0), (8, 8, 0), (3, 8, 0), (3, 8, 1),
    (7, 5, 1), (6, 8, 0), (5, 8, 0), (4, 8, 0), (3, 5, 1),
    (6, 8, 1), (5, 7, 1), (5, 8, 1), (5, 3, 1), (4, 8, 1) ]

/-- The `relativeTos` keyword alternation of `PlacementMeta::parse`. -/
def relativeTosList : List String :=
  [ "PAGE","ASSEM","MULTI_STEP","STEP_NUMBER","PLI","CALLOUT","PAGE_NUMBER",
    "DOCUMENT_TITLE","MODEL_ID","DOCUMENT_AUTHOR","PUBLISH_URL","MODEL_DESCRIPTION",
    "PUBLISH_DESCRIPTION","PUBLISH_COPYRIGHT","PUBLISH_EMAIL","LEGO_DISCLAIMER",
    "MODEL_PIECES","APP_PLUG","MODEL_CATEGORY","DOCUMENT_LOGO","DOCUMENT_COVER_IMAGE",
    "APP_PLUG_IMAGE","PAGE_HEADER","PAGE_FOOTER","ROTATE_ICON","PAGE_POINTER",
    "ONETOONE","PARTID","SUBMODEL","ILLUSTRATION","RIGHTWRONG","STICKER" ]

/-- The slice of the global `tokenMap` mapping relative-to keywords to
`PlacementType` codes (`PAGE` is `PageType` = 0, and so on in declaration
order).  A missing key yields the hash default 0, as `QHash` does. -/
def tokenMapRelativeTo (s : String) : Int :=
  match relativeTosList.indexOf? s with
  | some i => (i : Int)
  | none => 0

/-- Value of a placement leaf: the three decode enums, the preposition, the
rectangular-zone index and the two pixel offsets. -/
structure PlacementData where
  placement : Int
  justification : Int
  relativeTo : Int
  preposition : Int
  rectPlacement : Int
  offset0 : Dec
  offset1 : Dec
deriving DecidableEq, Repr

/-- State of a `PlacementMeta` leaf. -/
structure PlacementMeta where
  value0 : PlacementData
  value1 : PlacementData
  here0 : SrcWhere
  here1 : SrcWhere
  pushed : Bool
  global : Bool
  preamble : String
deriving DecidableEq, Repr

/-- Read `_value[pushed]`. -/
def PlacementMeta.valueActive (m : PlacementMeta) : PlacementData :=
  if m.pushed then m.value1 else m.value0

/-- Write `_value[pushed]`. -/
def PlacementMeta.setValueActive (m : PlacementMeta) (v : PlacementData) : PlacementMeta :=
  if m.pushed then { m with value1 := v } else { m with value0 := v }

/-- Write `_here[pushed]`. -/
def PlacementMeta.setHereActive (m : PlacementMeta) (w : SrcWhere) : PlacementMeta :=
  if m.pushed then { m with here1 := w } else { m with here0 := w }

/-- `PlacementMeta::parse`. -/
def PlacementMeta.parse (m : PlacementMeta) (argv : List String) (index : Nat)
    (here : SrcWhere) : Rc × PlacementMeta :=
  let argc := argv.length
  -- OFFSET short-circuit: only update offsets, keep placement; on a
  -- malformed offset clause control falls through with index moved past
  -- the OFFSET token
  let ofs : Option (Dec × Dec) × Nat :=
    if argv.getD index "" = "OFFSET" then
      if (argc : Int) - ((index : Int) + 1) = 2 then
        match strToFloat (argv.getD (index + 1) ""), strToFloat (argv.getD (index + 2) "") with
        | some a, some b => (some (a, b), index + 1)
        | _, _ => (none, index + 1)
      else (none, index + 1)
    else (none, index)
  match ofs with
  | (some (a, b), _) =>
    (OkRc, (m.setValueActive
      { m.valueActive with offset0 := a, offset1 := b }).setHereActive here)
  | (none, index) =>
    -- first token shapes: (TOP|BOTTOM) (LEFT|CENTER|RIGHT)?, mirrored
    -- (LEFT|RIGHT) (TOP|CENTER|BOTTOM)?, or a corner/center token
    let shape : Option (String × String × Nat × Bool) :=
      if argv.getD index "" = "TOP" ∨ argv.getD index "" = "BOTTOM" then
        let placement := argv.getD index ""
        let index := index + 1
        if index < argc then
          if argv.getD index "" = "LEFT" ∨ argv.getD index "" = "CENTER" ∨
              argv.getD index "" = "RIGHT" then
            some (placement, argv.getD index "", index + 1, true)
          else if relativeTosList.contains (argv.getD index "") then
            some (placement, "", index, true)
          else some (placement, "", index, false)
        else some (placement, "", index, false)
      else if argv.getD index "" = "LEFT" ∨ argv.getD index "" = "RIGHT" then
        let placement := argv.getD index ""
        let index := index + 1
        if index < argc then
          if argv.getD index "" = "TOP" ∨ argv.getD index "" = "CENTER" ∨
              argv.getD index "" = "BOTTOM" then
            some (placement, argv.getD index "", index + 1, true)
          else if relativeTosList.contains (argv.getD index "") then
            some (placement, "", index, true)
          else some (placement, "", index, false)
        else some (placement, "", index, false)
      else if argv.getD index "" = "TOP_LEFT" ∨ argv.getD index "" = "TOP_RIGHT" ∨
          argv.getD index "" = "BOTTOM_LEFT" ∨ argv.getD index "" = "BOTTOM_RIGHT" ∨
          argv.getD index "" = "CENTER" then
        some (argv.getD index "", "", index + 1, true)
      else none
    match shape with
    | none => (FailureRc, m)
    | some (placement, justification, index, rcOk) =>
      if rcOk ∧ index < argc then
        -- relative-to keyword, optional preposition, optional offsets
        let rel : String × String × Nat × Bool × Dec × Dec :=
          if relativeTosList.contains (argv.getD index "") then
            let relativeTo := argv.getD index ""
            let index := index + 1
            if index < argc then
              let prep : String × Nat × Bool :=
                if argv.getD index "" = "INSIDE" ∨ argv.getD index "" = "OUTSIDE" then
                  (argv.getD index "", index + 1, true)
                else ("", index, rcOk)
              let preposition := prep.1
              let index := prep.2.1
              let rcOk := prep.2.2
              if (argc : Int) - (index : Int) = 2 then
                match strToFloat (argv.getD index ""), strToFloat (argv.getD (index + 1) "") with
                | some a, some b => (relativeTo, preposition, index + 2, true, a, b)
                | _, _ => (relativeTo, preposition, index, rcOk, ⟨0, 0⟩, ⟨0, 0⟩)
              else (relativeTo, preposition, index, rcOk, ⟨0, 0⟩, ⟨0, 0⟩)
            else (relativeTo, index, true, (⟨0, 0⟩ : Dec), (⟨0, 0⟩ : Dec)) |>
              (fun st => (st.1, "", st.2.1, st.2.2.1, st.2.2.2.1, st.2.2.2.2))
          else ("", "", index, rcOk, ⟨0, 0⟩, ⟨0, 0⟩)
        let relativeTo := rel.1
        let preposition := rel.2.1
        let rcOk := rel.2.2.2.1
        let off0 := rel.2.2.2.2.1
        let off1 := rel.2.2.2.2.2
        -- required normalization before table lookup
        let justification :=
          if preposition = "INSIDE" ∧ justification = "CENTER" then "" else justification
        match placementOptions.indexOf? (placement, justification, preposition) with
        | none => (FailureRc, m)
        | some i =>
          let row := placementDecode.getD i (0, 0, 0)
          let relCode := tokenMapRelativeTo relativeTo
          let v : PlacementData :=
            { placement := row.1, justification := row.2.1,
              relativeTo := relCode, preposition := row.2.2,
              rectPlacement := (i : Int), offset0 := off0, offset1 := off1 }
          ((if rcOk then OkRc else FailureRc),
            (m.setValueActive v).setHereActive here)
      else ((if rcOk then OkRc else FailureRc), m)

/- ===== BackgroundMeta ===== -/

/-- Background kind tags (`BackgroundData::Background`). -/
inductive BgType where
  | BgTransparent : BgType
  | BgImage : BgType
  | BgColor : BgType
  | BgGradient : BgType
  | BgSubmodelColor : BgType
deriving DecidableEq, Repr

/-- Value of a background leaf.  Gradient points carry the `int`-truncated
coordinates the source stores; gradient stops carry the stop position and
the 32-bit rgba value. -/
structure BackgroundData where
  type : BgType
  string : String
  stretch : Bool
  gmode : Int
  gspread : Int
  gtype : Int
  gsize0 : Int
  gsize1 : Int
  gangle : Int
  gpoints : List (Int × Int)
  gstops : List (Dec × Nat)
deriving DecidableEq, Repr

/-- State of a `BackgroundMeta` leaf. -/
structure BackgroundMeta where
  value0 : BackgroundData
  value1 : BackgroundData
  here0 : SrcWhere
  here1 : SrcWhere
  pushed : Bool
  global : Bool
  preamble : String
deriving DecidableEq, Repr

/-- Read `_value[pushed]`. -/
def BackgroundMeta.valueActive (m : BackgroundMeta) : BackgroundData :=
  if m.pushed then m.value1 else m.value0

/-- Write `_value[pushed]`. -/
def BackgroundMeta.setValueActive (m : BackgroundMeta) (v : BackgroundData) : BackgroundMeta :=
  if m.pushed then { m with value1 := v } else { m with value0 := v }

/-- Write `_here[pushed]`. -/
def BackgroundMeta.setHereActive (m : BackgroundMeta) (w : SrcWhere) : BackgroundMeta :=
  if m.pushed then { m with here1 := w } else { m with here0 := w }

/-- Read `_here[pushed]`. -/
def BackgroundMeta.hereActive (m : BackgroundMeta) : SrcWhere :=
  if m.pushed then m.here1 else m.here0

/-- `QString::section(',', i, i)`: the i-th comma-separated field, empty if
absent. -/
def qsection (s : String) (i : Nat) : String :=
  (splitChar ',' s).getD i ""

/-- One gradient point token `x,y`: both fields must convert as floats and
are truncated to `int` on storage. -/
def gpointVal (s : String) : Option (Int × Int) :=
  match strToFloat (qsection s 0), strToFloat (qsection s 1) with
  | some x, some y => some (x.trunc, y.trunc)
  | _, _ => none

/-- One gradient stop token `pos,rgba-hex`. -/
def gstopVal (s : String) : Option (Dec × Nat) :=
  match strToFloat (qsection s 0), strToUIntHex (qsection s 1) with
  | some p, some c => some (p, c)
  | _, _ => none

/-- The branch body of `BackgroundMeta::parse` (everything before the
final `if (rc == OkRc)` gate). -/
def BackgroundMeta.parseCore (m : BackgroundMeta) (argv : List String) (index : Nat) :
    Rc × BackgroundMeta :=
  let argc := argv.length
    if (argc : Int) - (index : Int) = 1 then
      if argv.getD index "" = "TRANS" ∨ argv.getD index "" = "TRANSPARENT" then
        (OkRc, m.setValueActive { m.valueActive with type := BgType.BgTransparent })
      else if argv.getD index "" = "SUBMODEL_BACKGROUND_COLOR" then
        (OkRc, m.setValueActive { m.valueActive with type := BgType.BgSubmodelColor })
      else
        (OkRc, m.setValueActive
          { m.valueActive with
            type := BgType.BgImage,
            string := argv.getD index "", stretch := false })
    else if (argc : Int) - (index : Int) = 2 then
      if argv.getD index "" = "COLOR" then
        (OkRc, m.setValueActive
          { m.valueActive with type := BgType.BgColor, string := argv.getD (index + 1) "" })
      else if argv.getD index "" = "PICTURE" then
        (OkRc, m.setValueActive
          { m.valueActive with
            type := BgType.BgImage,
            string := argv.getD (index + 1) "", stretch := false })
      else (FailureRc, m)
    else if (argc : Int) - (index : Int) = 3 then
      if argv.getD index "" = "PICTURE" ∧ argv.getD (index + 2) "" = "STRETCH" then
        (OkRc, m.setValueActive
          { m.valueActive with
            type := BgType.BgImage,
            string := argv.getD (index + 1) "", stretch := true })
      else (FailureRc, m)
    else if (argc : Int) - (index : Int) = 9 then
      if argv.getD index "" = "GRADIENT" then
        let ok0 := (strToInt (argv.getD (index + 1) "")).isSome
        let ok1 := (strToInt (argv.getD (index + 2) "")).isSome
        let ok2 := (strToInt (argv.getD (index + 3) "")).isSome
        let ok3 := (strToFloat (argv.getD (index + 4) "")).isSome
        let ok4 := (strToFloat (argv.getD (index + 5) "")).isSome
        let ok5 := (strToFloat (argv.getD (index + 6) "")).isSome
        let pointToks := splitChar '|' (argv.getD (index + 7) "")
        let stopToks := splitChar '|' (argv.getD (index + 8) "")
        let pass := pointToks.all (fun t => (gpointVal t).isSome) ∧
          stopToks.all (fun t => (gstopVal t).isSome)
        if ok0 ∧ ok1 ∧ ok2 ∧ ok3 ∧ ok4 ∧ ok5 ∧ pass then
          let gmodeIn := (strToInt (argv.getD (index + 1) "")).getD 0
          let gspreadIn := (strToInt (argv.getD (index + 2) "")).getD 0
          let gtypeIn := (strToInt (argv.getD (index + 3) "")).getD 0
          let v := m.valueActive
          -- missing switch defaults leave the previous enum value in place
          let gmode := if gmodeIn = 0 ∨ gmodeIn = 1 ∨ gmodeIn = 2 then gmodeIn else v.gmode
          let gspread := if gspreadIn = 0 ∨ gspreadIn = 1 ∨ gspreadIn = 2 then gspreadIn else v.gspread
          let gtype := if gtypeIn = 0 ∨ gtypeIn = 1 ∨ gtypeIn = 2 then gtypeIn else v.gtype
          (OkRc, m.setValueActive
            { v with
              type := BgType.BgGradient,
              gmode := gmode, gspread := gspread, gtype := gtype,
              gsize0 := (strToInt (argv.getD (index + 4) "")).getD 0,
              gsize1 := (strToInt (argv.getD (index + 5) "")).getD 0,
              gangle := (strToInt (argv.getD (index + 6) "")).getD 0,
              gpoints := pointToks.filterMap gpointVal,
              gstops := stopToks.filterMap gstopVal })
        else (FailureRc, m)
      else (FailureRc, m)
    else (FailureRc, m)

/-- `BackgroundMeta::parse`: the branch body, then the final gate that
stores the source location on success and reports failure otherwise. -/
def BackgroundMeta.parse (m : BackgroundMeta) (argv : List String) (index : Nat)
    (here : SrcWhere) : Rc × BackgroundMeta :=
  let res := m.parseCore argv index
  if res.1 = OkRc then (res.1, res.2.setHereActive here)
  else (FailureRc, res.2)

/- ===== BorderMeta ===== -/

/-- Border kind tags (`BorderData::Border`). -/
inductive BdrType where
  | BdrNone : BdrType
  | BdrSquare : BdrType
  | BdrRound : BdrType
deriving DecidableEq, Repr

/-- Value of a border leaf. -/
structure BorderData where
  type : BdrType
  line : Int
  color : String
  thickness : Dec
  radius : Int
  margin0 : Dec
  margin1 : Dec
deriving DecidableEq, Repr

/-- State of a `BorderMeta` leaf. -/
structure BorderMeta where
  value0 : BorderData
  value1 : BorderData
  here0 : SrcWhere
  here1 : SrcWhere
  pushed : Bool
  global : Bool
  preamble : String
deriving DecidableEq, Repr

/-- Read `_value[pushed]`. -/
def BorderMeta.valueActive (m : BorderMeta) : BorderData :=
  if m.pushed then m.value1 else m.value0

/-- Write `_value[pushed]`. -/
def BorderMeta.setValueActive (m : BorderMeta) (v : BorderData) : BorderMeta :=
  if m.pushed then { m with value1 := v } else { m with value0 := v }

/-- Write `_here[pushed]`. -/
def BorderMeta.setHereActive (m : BorderMeta) (w : SrcWhere) : BorderMeta :=
  if m.pushed then { m with here1 := w } else { m with here0 := w }

/-- Modelled from the spec: `setBorderLine` lives in the missing header; it
converts the numeric line-style token into the stored line code.  Its exact
mapping decides no claim (the BorderMeta claims concern mutation order and
token bounds only). -/
def setBorderLine (s : String) : Int :=
  (strToInt s).getD 0

/-- `BorderMeta::parse`.  The result is `none` exactly when the source
would read a token past the end of the token list (undefined behaviour for
`QStringList::operator[]`): the `NONE` branch reads `argv[index+1]` behind
the vacuous arity guard `argv.size() - index >= 1`. -/
def BorderMeta.parse (m : BorderMeta) (argv : List String) (index : Nat)
    (here : SrcWhere) : Option (Rc × BorderMeta) := do
  let t0 ← argv[index]?
  let step :
      Rc × BorderMeta × Nat ←
    if t0 = "NONE" ∧ (argv.length : Int) - (index : Int) ≥ 1 then do
      -- the border type is overwritten before the line-style token is
      -- validated
      let m1 := m.setValueActive { m.valueActive with type := BdrType.BdrNone }
      let t1 ← argv[index + 1]?
      if (strToInt t1).isSome then
        pure (OkRc,
          m1.setValueActive { m1.valueActive with
            line := setBorderLine t1 },
          index + 1)
      else
        pure (FailureRc, m1, index)
    else if t0 = "SQUARE" ∧ (argv.length : Int) - (index : Int) ≥ 4 then do
      let t1 ← argv[index + 1]?
      let t2 ← argv[index + 2]?
      let t3 ← argv[index + 3]?
      match strToInt t1, strToFloat t3 with
      | some _, some th =>
        pure (OkRc,
          m.setValueActive
            { m.valueActive with
              type := BdrType.BdrSquare,
              line := setBorderLine t1, color := t2, thickness := th },
          index + 4)
      | _, _ => pure (FailureRc, m, index)
    else if t0 = "ROUND" ∧ (argv.length : Int) - (index : Int) ≥ 5 then do
      let t1 ← argv[index + 1]?
      let t2 ← argv[index + 2]?
      let t3 ← argv[index + 3]?
      let t4 ← argv[index + 4]?
      match strToInt t1, strToFloat t3, strToInt t4 with
      | some _, some th, some rad =>
        pure (OkRc,
          m.setValueActive
            { m.valueActive with
              type := BdrType.BdrRound,
              line := setBorderLine t1, color := t2, thickness := th,
              radius := rad },
          index + 5)
      | _, _, _ => pure (FailureRc, m, index)
    else
      pure (FailureRc, m, index)
  let rc := step.1
  let m := step.2.1
  let index := step.2.2
  let tail : Rc × BorderMeta :=
    if rc = OkRc ∧ (argv.length : Int) - (index : Int) = 3 then
      if argv.getD index "" = "MARGINS" then
        match strToFloat (argv.getD (index + 1) ""), strToFloat (argv.getD (index + 2) "") with
        | some m0, some m1 =>
          (OkRc, m.setValueActive { m.valueActive with margin0 := m0, margin1 := m1 })
        | _, _ => (FailureRc, m)
      else (FailureRc, m)
    else (rc, m)
  if tail.1 = OkRc then
    pure (OkRc, tail.2.setHereActive here)
  else
    pure (tail.1, tail.2)

/- ===== BOM split partitioning (`Pli::setParts`, split branch) ===== -/

/-- Page bounds of the BOM split: occurrence `o` of `n` BOM pages over `t`
collected parts receives the keys whose running index lies in the half-open
interval returned here (`startIndex`, `maxParts`); quotient/remainder as in
the source, with the remainder attached to the last occurrence. -/
def bomPageBounds (t n o : Nat) : Nat × Nat :=
  let quotient := t / n
  let remainder := t % n
  if o = n then
    (o * quotient + remainder - quotient - remainder, o * quotient + remainder)
  else
    (o * quotient - quotient, o * quotient)

/-- The keys a given BOM occurrence receives: mirrors the foreach loop of
`Pli::setParts` inserting the keys whose running `partIndex` lies in
`[startIndex, maxParts)`. -/
def bomPageKeys (sortedKeys : List String) (n o : Nat) : List String :=
  let b := bomPageBounds sortedKeys.length n o
  ((sortedKeys.enum).filter (fun p => b.1 ≤ p.1 ∧ p.1 < b.2)).map Prod.snd

/- ===== Pli::sortParts ===== -/

/-- The per-part data `sortParts` looks at: the dedup key held in
`sortedKeys` and the four zero-padded sort-value strings. -/
structure SortPart where
  key : String
  sortSize : String
  sortColour : String
  sortCategory : String
  sortElement : String
deriving DecidableEq, Repr

instance : Inhabited SortPart := ⟨⟨"", "", "", "", ""⟩⟩

/-- The sort-field options of the configured sort order (the `NoSortOpt`
constructor models the source's `NoSort` sentinel). -/
inductive SortOption where
  | PartSize : SortOption
  | PartColour : SortOption
  | PartCategory : SortOption
  | PartElement : SortOption
  | NoSortOpt : SortOption
deriving DecidableEq, Repr

/-- The resolved sort configuration: option and direction per level (the
source reads these through `tokenMap` from `pliMeta.sortOrder`; the enum
constants live in a header that is not part of the sources, so the options
are modelled as an inductive type). -/
structure SortConfig where
  primary : SortOption
  secondary : SortOption
  tertiary : SortOption
  primaryAsc : Bool
  secondaryAsc : Bool
  tertiaryAsc : Bool
deriving DecidableEq, Repr

/-- `setPartValues`: the sort-value string a given option selects. -/
def sortValue (o : SortOption) (p : SortPart) : String :=
  match o with
  | SortOption.PartSize => p.sortSize
  | SortOption.PartColour => p.sortColour
  | SortOption.PartCategory => p.sortCategory
  | SortOption.PartElement => p.sortElement
  | SortOption.NoSortOpt => ""

/-- Lexicographic strict comparison of character lists, the order
`QString::operator<` induces on the sort-value strings. -/
def charListLtB : List Char → List Char → Bool
  | [], [] => false
  | [], _ :: _ => true
  | _ :: _, [] => false
  | a :: as, b :: bs => if a < b then true else if b < a then false else charListLtB as bs

/-- Strict string comparison used by the sort. -/
def strLtB (s t : String) : Bool :=
  charListLtB s.data t.data

/-- The running evaluation state of one pair comparison: `canSort`, the
current direction, the two compared values and the `sortedBy` flags. -/
structure SortEvalState where
  canSort : Bool
  ascending : Bool
  firstValue : String
  nextValue : String
  sortedBy : List SortOption
deriving DecidableEq, Repr

/-- Whether `sortParts` swaps the pair `(a, b)` (with `a` before `b`):
primary always processed when configured, secondary and tertiary only on a
tie of the values compared so far, skipping options already used and the
`NoSort` sentinel, and never consulted in split mode.  The comparison uses
the direction of the last processed level.  (The source threads the
`ascending` flag through a mutable variable that is re-initialised by every
level that is processed, and `canSort` is false when no level was
processed, so the swap decision is a pure function of the pair.) -/
def swapQ (cfg : SortConfig) (setSplit : Bool) (a b : SortPart) : Bool :=
  let s0 : SortEvalState := ⟨false, true, "", "", []⟩
  let s1 :=
    if cfg.primary ≠ SortOption.NoSortOpt then
      ⟨true, cfg.primaryAsc, sortValue cfg.primary a, sortValue cfg.primary b, [cfg.primary]⟩
    else s0
  let s2 :=
    if ¬setSplit ∧ s1.firstValue = s1.nextValue ∧
        ¬(s1.sortedBy.contains cfg.secondary) ∧ cfg.secondary ≠ SortOption.NoSortOpt then
      ⟨true, cfg.secondaryAsc, sortValue cfg.secondary a, sortValue cfg.secondary b,
        cfg.secondary :: s1.sortedBy⟩
    else s1
  let s3 :=
    if ¬setSplit ∧ s2.firstValue = s2.nextValue ∧
        ¬(s2.sortedBy.contains cfg.tertiary) ∧ cfg.tertiary ≠ SortOption.NoSortOpt then
      ⟨true, cfg.tertiaryAsc, sortValue cfg.tertiary a, sortValue cfg.tertiary b,
        cfg.tertiary :: s2.sortedBy⟩
    else s2
  s3.canSort &&
    (if s3.ascending then strLtB s3.nextValue s3.firstValue
      else strLtB s3.firstValue s3.nextValue)

/-- One swap of `sortedKeys[firstPart]` and `sortedKeys[nextPart]`. -/
def exchSwap [Inhabited α] (l : List α) (f nx : Nat) : List α :=
  (l.set f (l.getD nx default)).set nx (l.getD f default)

/-- Inner loop of one pass of `sortParts`: `nextPart` runs upward from
`nx`, swapping in place whenever the comparator says the pair at
`(firstPart, nextPart)` is out of order; `sw` records whether any swap has
happened yet (`unsorted`).  The fuel argument bounds the number of
iterations; the caller supplies the list length, which always suffices. -/
def innerPass [Inhabited α] (gt : α → α → Bool) :
    Nat → List α → Nat → Nat → Bool → List α × Bool
  | 0, l, _, _, sw => (l, sw)
  | fuel + 1, l, f, nx, sw =>
    if nx < l.length then
      if gt (l.getD f default) (l.getD nx default) then
        innerPass gt fuel (exchSwap l f nx) f (nx + 1) true
      else
        innerPass gt fuel l f (nx + 1) sw
    else (l, sw)

/-- Outer loop of one pass: `firstPart` runs from `0` to `size - 2`; the
fuel argument bounds the number of iterations (`passOnce` supplies the list
length, which is never exceeded since swaps preserve the length). -/
def outerPass [Inhabited α] (gt : α → α → Bool) : Nat → List α → Nat → Bool → List α × Bool
  | 0, l, _, sw => (l, sw)
  | fuel + 1, l, f, sw =>
    if f + 1 < l.length then
      outerPass gt fuel (innerPass gt l.length l f (f + 1) sw).1 (f + 1)
        (innerPass gt l.length l f (f + 1) sw).2
    else (l, sw)

/-- One full pass of the double loop. -/
def passOnce [Inhabited α] (gt : α → α → Bool) (l : List α) : List α × Bool :=
  outerPass gt l.length l 0 false

/-- The `while (unsorted)` loop, with an explicit pass budget.  (The budget
used by `sortPartsModel` is one more than the inversion count of the input,
which is proved sufficient below.) -/
def sortLoopN [Inhabited α] (gt : α → α → Bool) : Nat → List α → List α
  | 0, l => l
  | fuel + 1, l =>
    if (passOnce gt l).2 then sortLoopN gt fuel (passOnce gt l).1
    else (passOnce gt l).1

/-- Number of inverted pairs of `l` under `gt` (position pairs `i < j` with
`gt`-out-of-order entries): the termination measure of the sort. -/
def invCount (gt : α → α → Bool) : List α → Nat
  | [] => 0
  | a :: t => t.countP (fun x => gt a x) + invCount gt t

/-- `Pli::sortParts` on the sorted-key list: repeated passes until one pass
performs no swap. -/
def sortPartsModel (cfg : SortConfig) (setSplit : Bool) (l : List SortPart) : List SortPart :=
  sortLoopN (swapQ cfg setSplit) (invCount (swapQ cfg setSplit) l + 1) l

/-- Clean lexicographic view of the comparator: evaluate the levels in
order, deciding at the first level whose values differ. -/
def lexGt : List (SortOption × Bool) → SortPart → SortPart → Bool
  | [], _, _ => false
  | (o, asc) :: rest, a, b =>
    if sortValue o a = sortValue o b then lexGt rest a b
    else if asc then strLtB (sortValue o b) (sortValue o a)
    else strLtB (sortValue o a) (sortValue o b)

/-- Number of `gt`-out-of-order pairs with the first element from `xs` and
the second from `ys`. -/
def crossCount (gt : α → α → Bool) (xs ys : List α) : Nat :=
  (xs.map (fun x => ys.countP (fun y => gt x y))).sum

/- ===== Pli packing engine (`Pli::placePli`, `Pli::resizePli`) ===== -/

/-- A part as the packing algorithm sees it: image dimensions, silhouette
edge arrays (`leftEdge[y]`/`rightEdge[y]`), the pixel margins, and the
mutable placement result fields.  `kind` is a ghost marker recording which
branch of the algorithm placed the part (0 unplaced, 1 column anchor,
2 slotted under the column top via the silhouette fit, 3 stacked
vertically); the algorithm never reads it. -/
structure PliPart where
  width : Int
  height : Int
  leftEdge : List Int
  rightEdge : List Int
  csiX : Int
  csiY : Int
  topMargin : Int
  instX : Int
  styleX : Int
  annotWidth : Int
  left : Int
  bot : Int
  placed : Bool
  col : Int
  kind : Nat
deriving DecidableEq, Repr

instance : Inhabited PliPart :=
  ⟨⟨0, 0, [], [], 0, 0, 0, 0, 0, 0, 0, 0, false, 0, 0⟩⟩

/-- The border constants the packing reads
(`pliMeta.border.valuePixels()`). -/
structure BorderPx where
  thickness : Dec
  margin0 : Dec
  margin1 : Dec
deriving DecidableEq, Repr

/-- The remaining configuration `placePli` reads. -/
structure PlaceCfg where
  bom : Bool
  partElementsDisplay : Bool
  bd : BorderPx
  sortType : Bool
deriving DecidableEq, Repr

/-- The reset loop at the head of `placePli`: clear `placed` on every key
part and raise the height constraint to the tallest part
(the `return -2` of the source is commented out). -/
def placeInit (ps : List PliPart) (keys : List Nat) (yC : Int) : List PliPart × Int :=
  keys.foldl (fun (acc : List PliPart × Int) k =>
    let p := acc.1.getD k default
    (acc.1.set k { p with placed := false, kind := 0 },
      if p.height > acc.2 then p.height else acc.2)) (ps, yC)

/-- The first-fit scan opening a column: the first unplaced key whose width
fits before the x-constraint. -/
def findAnchor (ps : List PliPart) (keys : List Nat) (left xC : Int) : Option Nat :=
  (List.range keys.length).find? (fun i =>
    let p := ps.getD (keys.getD i 0) default
    !p.placed && decide (left + p.width < xC))

/-- The silhouette test of the "slot under the right side of the column's
top part" placement: no overlapping scanline may violate the margins. -/
def fitsUnder (prev part : PliPart) : Bool :=
  let xM := max prev.csiX part.csiX
  let yM := max prev.csiY part.csiY
  (List.range part.height.toNat).all (fun top =>
    let ltop : Int := prev.height - part.height - yM + (top : Int)
    if 0 ≤ ltop ∧ ltop < prev.height then
      decide (prev.rightEdge.getD ltop.toNat 0 + xM ≤
        prev.width - part.width + part.leftEdge.getD top 0)
    else true)

/-- Scan for the first unplaced part whose silhouette fits under the column
top. -/
def fitsScan (ps : List PliPart) (keys : List Nat) (prev : PliPart) : Option Nat :=
  (List.range keys.length).find? (fun i =>
    let p := ps.getD (keys.getD i 0) default
    !p.placed && fitsUnder prev p)

/-- Whether dropping the new part `overlap` pixels into the previous part
makes the two silhouettes collide (the two inner scanline loops). -/
def collisionAt (prev part : PliPart) (sm k : Int) : Bool :=
  if k > part.height then
    (List.range part.height.toNat).any (fun r =>
      decide (part.rightEdge.getD r 0 + sm >
        prev.leftEdge.getD ((r : Int) + k - part.height).toNat 0))
  else
    (List.range k.toNat).any (fun l =>
      let r : Int := part.height - k - 1 + (l : Int)
      decide (0 ≤ r) &&
        decide (part.rightEdge.getD r.toNat 0 + sm > prev.leftEdge.getD l 0))

/-- The final value of the `overlap` counter: one past the first colliding
depth, or the previous part's height when no depth collides (1 when the
loop never runs). -/
def overlapFor (prev part : PliPart) (sm : Int) : Int :=
  match ((List.range (prev.height - 1).toNat).map (fun j => (j : Int) + 1)).find?
      (fun k => collisionAt prev part sm k) with
  | some k => k + 1
  | none => if prev.height ≤ 1 then 1 else prev.height

/-- Scan for the first unplaced part that still fits vertically in the
current column under the height constraint. -/
def stackFind (ps : List PliPart) (keys : List Nat) (prev : PliPart) (bot yC : Int) :
    Option Nat :=
  (List.range keys.length).find? (fun i =>
    let p := ps.getD (keys.getD i 0) default
    !p.placed &&
      (let sm := max prev.topMargin p.csiY
       decide (bot + p.height + sm - overlapFor prev p sm ≤ yC)))

/-- State of the vertical-stacking loop of one column. -/
structure StackState where
  ps : List PliPart
  prevIdx : Nat
  bot : Int
  width : Int
  widest : Nat
  margin1 : Int
  nPlaced : Nat
  tallest : Int
deriving Repr

/-- The `while (nPlaced < parts.size())` vertical-stacking loop of one
column.  `none` means the fuel ran out (proved impossible below for the
fuel `placePli` passes). -/
def stackLoop (keys : List Nat) (cols left yC : Int) (sortType : Bool) :
    Nat → StackState → Option StackState
  | 0, _ => none
  | fuel + 1, st =>
    if st.nPlaced < st.ps.length then
      match stackFind st.ps keys (st.ps.getD st.prevIdx default) st.bot yC with
      | none => some st
      | some i =>
        let prev := st.ps.getD st.prevIdx default
        let ki := keys.getD i 0
        let p := st.ps.getD ki default
        let sm := max prev.topMargin p.csiY
        let ov := overlapFor prev p sm
        let bot1 := st.bot + sm
        let ps1 := st.ps.set ki
          { p with left := left, bot := bot1 - ov, placed := true, col := cols, kind := 3 }
        let grow := sortType ∧ p.width > st.width
        let bot2 := bot1 - ov + (p.height + sm)
        stackLoop keys cols left yC sortType fuel
          { ps := ps1, prevIdx := ki, bot := bot2,
            width := if grow then p.width else st.width,
            widest := if grow then i else st.widest,
            margin1 := p.csiX, nPlaced := st.nPlaced + 1,
            tallest := if bot2 > st.tallest then bot2 else st.tallest }
    else some st

/-- State of the column loop of `placePli`. -/
structure ColState where
  ps : List PliPart
  left : Int
  nPlaced : Nat
  tallest : Int
  topM : Int
  botM : Int
  cols : Int
  margins : List (Int × Int)
deriving Repr

/-- Opening a column: the anchor part is placed at the running `left`. -/
def anchorSet (ps : List PliPart) (ai : Nat) (left cols1 : Int) : List PliPart :=
  let a := ps.getD ai default
  ps.set ai { a with left := left, bot := 0, placed := true, col := cols1, kind := 1 }

/-- The first column margin `margin` (instance/CSI margins, plus the
element-style margin in BOM part-element mode). -/
def colM1 (cfg : PlaceCfg) (a : PliPart) : Int :=
  let base := max a.instX a.csiX
  if cfg.bom ∧ cfg.partElementsDisplay then
    let em := max a.styleX a.csiX
    if em > base then em else base
  else base

/-- The second column margin, read from the widest part of the column. -/
def colM2 (wpart : PliPart) : Int :=
  if wpart.annotWidth ≠ 0 then max wpart.styleX wpart.csiX else wpart.csiX

/-- The under-the-anchor fit: place the first unplaced part whose
silhouette fits under the column top, flush right; returns the updated
parts, the updated counter and the `part` index left in the loop variable
(the last key when nothing fits, matching the fallen-through scan). -/
def fitSet (ps1 : List PliPart) (keys : List Nat) (a : PliPart) (left cols1 : Int)
    (nP : Nat) (lastIdx : Nat) : List PliPart × Nat × Nat :=
  match fitsScan ps1 keys a with
  | some j =>
    let kj := keys.getD j 0
    let p := ps1.getD kj default
    (ps1.set kj
      { p with
          left := left + a.width - p.width, bot := 0, placed := true, col := cols1, kind := 2 },
      nP + 2, kj)
  | none => (ps1, nP + 1, lastIdx)

/-- The `while (nPlaced < keys.size())` column loop.  Returns the result
code (0 or -1) with the loop state; `none` means the fuel ran out. -/
def outerLoop (keys : List Nat) (xC yC : Int) (cfg : PlaceCfg) :
    Nat → ColState → Option (Int × ColState)
  | 0, _ => none
  | fuel + 1, st =>
    if st.nPlaced < keys.length then
      match findAnchor st.ps keys st.left xC with
      | none => some (-1, st)
      | some i =>
        let ai := keys.getD i 0
        let a := st.ps.getD ai default
        let fitted := fitSet (anchorSet st.ps ai st.left (st.cols + 1)) keys a st.left
          (st.cols + 1) st.nPlaced (keys.getD (keys.length - 1) 0)
        match stackLoop keys (st.cols + 1) st.left yC cfg.sortType (keys.length + 1)
            { ps := fitted.1, prevIdx := ai, bot := a.height, width := a.width,
              widest := i, margin1 := colM1 cfg a, nPlaced := fitted.2.1,
              tallest := max st.tallest a.height } with
        | none => none
        | some sst =>
          outerLoop keys xC yC cfg fuel
            { ps := sst.ps, left := st.left + sst.width, nPlaced := sst.nPlaced,
              tallest := sst.tallest,
              topM := max st.topM (sst.ps.getD fitted.2.2 default).topMargin,
              botM := max st.botM a.csiY, cols := st.cols + 1,
              margins := st.margins ++
                [(sst.margin1, colM2 (sst.ps.getD (keys.getD sst.widest 0) default))] }
    else some (0, st)

/-- Result of a `placePli` run. -/
structure PlaceResult where
  rc : Int
  ps : List PliPart
  cols : Int
  pliWidth : Int
  pliHeight : Int
deriving DecidableEq, Repr

/-- The margin post-processing after the column loop (lines adjusting every
part of column `col+1` and beyond and accumulating `pliWidth`). -/
def applyColMargins (keys : List Nat) (bd : BorderPx) (margins : List (Int × Int))
    (ps : List PliPart) (pliW : Int) : List PliPart × Int × Int :=
  (margins.enum).foldl (fun (acc : List PliPart × Int × Int) cm =>
    let col := cm.1
    let m := cm.2
    let margin := if col = 0 then max ((bd.thickness.add bd.margin0).trunc) m.1
      else max m.1 m.2
    let ps2 := (List.range acc.1.length).foldl (fun ps3 i =>
      let ki := keys.getD i 0
      let p := ps3.getD ki default
      if p.col ≥ (col : Int) + 1 then ps3.set ki { p with left := p.left + margin }
      else ps3) acc.1
    (ps2, acc.2.1 + margin, m.2)) (ps, pliW, 0)

/-- `Pli::placePli`. -/
def placePli (ps0 : List PliPart) (keys : List Nat) (xC yC0 : Int) (cfg : PlaceCfg) :
    Option PlaceResult :=
  let ini := placeInit ps0 keys yC0
  let topM0 : Int := (cfg.bd.margin1.add cfg.bd.thickness).trunc
  match outerLoop keys xC ini.2 cfg (keys.length + 1)
      { ps := ini.1, left := 0, nPlaced := 0, tallest := 0, topM := topM0,
        botM := topM0, cols := 0, margins := [] } with
  | none => none
  | some (rc, st) =>
    if rc = -1 then
      some { rc := -1, ps := st.ps, cols := st.cols, pliWidth := 0, pliHeight := 0 }
    else
      let amr := applyColMargins keys cfg.bd st.margins st.ps st.left
      let lastMargin : Int :=
        if Dec.ltB (Dec.ofInt amr.2.2) (cfg.bd.margin0.add cfg.bd.thickness) then
          (cfg.bd.margin0.add cfg.bd.thickness).trunc
        else amr.2.2
      let ps2 := (List.range amr.1.length).foldl (fun ps3 i =>
        let ki := keys.getD i 0
        let p := ps3.getD ki default
        ps3.set ki { p with bot := p.bot + st.botM }) amr.1
      some {
        rc := 0
        ps := ps2
        cols := st.cols
        pliWidth := amr.2.1 + lastMargin
        pliHeight := st.tallest + st.botM + st.topM }

/-- The constraint kinds of `ConstrainData::PliConstrain`. -/
inductive PliConstrain where
  | PliConstrainHeight : PliConstrain
  | PliConstrainColumns : PliConstrain
  | PliConstrainWidth : PliConstrain
  | PliConstrainArea : PliConstrain
  | PliConstrainSquare : PliConstrain
deriving DecidableEq, Repr

/-- Result of a `resizePli` branch: the stored `size[0]`/`size[1]`, the
final part states, the result code of the deciding `placePli` call, and
the constraint type left in the caller's `constrainData` (passed by
reference). -/
structure ResizeOut where
  size0 : Int
  size1 : Int
  ps : List PliPart
  lastRc : Int
  typeOut : PliConstrain
deriving Repr

/-- `Pli::resizePli`, Height branch: a single `placePli` call at the given
height with the 10000000-pixel x-constraint.  When that call returns -2 the
constraint type is switched to Area — but no Area layout is computed in
this call, and `placePli` never returns -2 (its height-infeasibility return
is commented out), so `size` is whatever the single call produced. -/
def resizePliHeight (ps : List PliPart) (keys : List Nat) (constraint : Int)
    (cfg : PlaceCfg) : Option ResizeOut :=
  match placePli ps keys 10000000 constraint cfg with
  | none => none
  | some r =>
    some {
      size0 := r.pliWidth, size1 := r.pliHeight, ps := r.ps, lastRc := r.rc
      typeOut := if r.rc = -2 then PliConstrain.PliConstrainArea
        else PliConstrain.PliConstrainHeight }

/-- Aggregate extents of the laid-out parts (the `w`/`h` maxima the Area
scan computes from the placed parts). -/
def layoutExtentW (ps : List PliPart) (keys : List Nat) : Int :=
  (List.range ps.length).foldl (fun acc i =>
    let p := ps.getD (keys.getD i 0) default
    if p.left + p.width > acc then p.left + p.width else acc) 0

def layoutExtentH (ps : List PliPart) (keys : List Nat) : Int :=
  (List.range ps.length).foldl (fun acc i =>
    let p := ps.getD (keys.getD i 0) default
    if p.bot + p.height > acc then p.bot + p.height else acc) 0

/-- The Area scan: decreasing heights in steps of `step`, tracking the
height minimising `w*h`; stops at the first infeasible height. -/
def areaScan (ps0 : List PliPart) (keys : List Nat) (cfg : PlaceCfg) (step : Int) :
    Nat → Int → Int → Int → Option (Int × Int)
  | 0, _, _, _ => none
  | fuel + 1, height, minArea, goodHeight =>
    if height > 0 then
      match placePli ps0 keys 10000000 height cfg with
      | none => none
      | some r =>
        if r.rc ≠ 0 then some (minArea, goodHeight)
        else
          let w := layoutExtentW r.ps keys
          let h := layoutExtentH r.ps keys
          if w * h < minArea then
            areaScan ps0 keys cfg step fuel (height - step) (w * h) height
          else
            areaScan ps0 keys cfg step fuel (height - step) minArea goodHeight
    else some (minArea, goodHeight)

/-- Total height of the key parts, the scan's starting height. -/
def totalKeyHeight (ps : List PliPart) (keys : List Nat) : Int :=
  (List.range ps.length).foldl (fun acc i =>
    acc + (ps.getD (keys.getD i 0) default).height) 0

/-- `Pli::resizePli`, Area branch: scan decreasing heights keeping the one
minimising the layout area, then lay out at that height.  `step` is the
pixel value of 0.1 inch or centimetre (`toPixels(0.1, DPI)`). -/
def resizePliArea (ps : List PliPart) (keys : List Nat) (cfg : PlaceCfg)
    (step : Int) : Option ResizeOut :=
  let h0 := totalKeyHeight ps keys
  match areaScan ps keys cfg step (h0.toNat + 2) h0 (h0 * h0) h0 with
  | none => none
  | some mg =>
    match placePli ps keys 10000000 mg.2 cfg with
    | none => none
    | some r =>
      some {
        size0 := r.pliWidth, size1 := r.pliHeight, ps := r.ps, lastRc := r.rc
        typeOut := PliConstrain.PliConstrainArea }

/- ===== concrete fixtures used by the claim theorems ===== -/

/-- A part with a full-rectangle silhouette. -/
def mkRect (w h : Int) : PliPart :=
  { width := w, height := h, leftEdge := List.replicate h.toNat 0,
    rightEdge := List.replicate h.toNat (w - 1), csiX := 0, csiY := 0,
    topMargin := 0, instX := 0, styleX := 0, annotWidth := 0,
    left := 0, bot := 0, placed := false, col := 0, kind := 0 }

/-- A packing configuration with zero border and margins. -/
def plainCfg (srt : Bool) : PlaceCfg :=
  ⟨false, false, ⟨⟨0, 0⟩, ⟨0, 0⟩, ⟨0, 0⟩⟩, srt⟩

/-- Parts of the packing counterexamples: widths 1, 2, 2 and heights
4, 3, 3. -/
def partsMono : List PliPart := [mkRect 1 4, mkRect 2 3, mkRect 2 3]

/-- Parts of the layout-invariant counterexample: a 2x4 column anchor whose
content sits in the leftmost pixel column, a 5x3 part whose content sits in
its rightmost pixel column (so it slots under the anchor), and a plain 4x2
part that stacks below. -/
def partsInv : List PliPart :=
  [ { mkRect 2 4 with rightEdge := [0, 0, 0, 0] },
    { mkRect 5 3 with leftEdge := [4, 4, 4], rightEdge := [4, 4, 4] },
    mkRect 4 2 ]

/-- Parts of the fallback counterexample: two 6000000-pixel-wide parts. -/
def partsWide : List PliPart := [mkRect 6000000 10, mkRect 6000000 10]

/-- A fully configured sort order: colour, then category, then size, all
ascending. -/
def cfgCCS : SortConfig :=
  ⟨SortOption.PartColour, SortOption.PartCategory, SortOption.PartSize, true, true, true⟩

/-- Three parts for the stability counterexample: `x` and `y` agree on all
four sort values, `z` sorts before them on the primary value. -/
def partsStab : List SortPart :=
  [⟨"x", "s", "2", "c", "e"⟩, ⟨"y", "s", "2", "c", "e"⟩, ⟨"z", "s", "1", "c", "e"⟩]

/-- A source location fixture. -/
def w0 : SrcWhere := ⟨"model.ldr", 42⟩

/-- An `IntMeta` fixture (range 0..100, success code `OkRc`). -/
def intM0 : IntMeta :=
  ⟨0, 0, ⟨"", 0⟩, ⟨"", 0⟩, false, false, 0, 100, OkRc, "0 !LPUB ASSEM MODEL_STEP_NUMBER ", 10⟩

/-- A `FloatMeta` fixture (range 0..100). -/
def floatM0 : FloatMeta :=
  ⟨⟨0, 0⟩, ⟨0, 0⟩, ⟨"", 0⟩, ⟨"", 0⟩, false, false, ⟨0, 0⟩, ⟨100, 0⟩, OkRc,
    "0 !LPUB ASSEM SCALE "⟩

/-- A `PlacementMeta` fixture (the constructor default: page top-left
inside corner). -/
def placeM0 : PlacementMeta :=
  ⟨⟨0, 8, 0, 0, 6, ⟨0, 0⟩, ⟨0, 0⟩⟩, ⟨0, 8, 0, 0, 6, ⟨0, 0⟩, ⟨0, 0⟩⟩, ⟨"", 0⟩, ⟨"", 0⟩,
    false, false, "0 !LPUB PLI PLACEMENT "⟩

/-- A `BorderMeta` fixture holding a square border. -/
def borderM0 : BorderMeta :=
  ⟨⟨BdrType.BdrSquare, 1, "Black", ⟨125, 3⟩, 0, ⟨0, 0⟩, ⟨0, 0⟩⟩,
    ⟨BdrType.BdrSquare, 1, "Black", ⟨125, 3⟩, 0, ⟨0, 0⟩, ⟨0, 0⟩⟩,
    ⟨"", 0⟩, ⟨"", 0⟩, false, false, "0 !LPUB PLI BORDER "⟩

/-- A `BackgroundMeta` fixture (transparent background). -/
def bgM0 : BackgroundMeta :=
  ⟨⟨BgType.BgTransparent, "", false, 0, 0, 0, 0, 0, 0, [], []⟩,
    ⟨BgType.BgTransparent, "", false, 0, 0, 0, 0, 0, 0, [], []⟩,
    ⟨"", 0⟩, ⟨"", 0⟩, false, false, "0 !LPUB PAGE BACKGROUND "⟩

/-- Two parts agreeing on the primary and secondary sort values but not on
the tertiary one. -/
def partsTert : List SortPart :=
  [⟨"u", "2", "1", "c", "e"⟩, ⟨"v", "1", "1", "c", "e"⟩]

/-- Ten concrete keys. -/
def keys10 : List String :=
  ["k0", "k1", "k2", "k3", "k4", "k5", "k6", "k7", "k8", "k9"]

/- ===== measures over the packing state (used by the theorems) ===== -/

/-- The geometry fields of a part that no packing step ever writes. -/
def pliDims (p : PliPart) : Int × Int × Int × Int :=
  (p.width, p.height, p.topMargin, p.csiY)

/-- Number of key parts currently flagged `placed`. -/
def placedCount (ps : List PliPart) (keys : List Nat) : Nat :=
  keys.countP (fun k => (ps.getD k default).placed)

/-- Total width of the key parts currently flagged `placed`. -/
def placedWidthSum (ps : List PliPart) (keys : List Nat) : Int :=
  (keys.map (fun k => if (ps.getD k default).placed then (ps.getD k default).width else 0)).sum

/-- Total width of all key parts. -/
def keysWidthSum (ps : List PliPart) (keys : List Nat) : Int :=
  (keys.map (fun k => (ps.getD k default).width)).sum

/- ===== theorems: helper lemmas ===== -/

/-- The length of the key list is preserved by the inner loop. -/
theorem innerPass_length [Inhabited α] (gt : α → α → Bool) :
    ∀ (fuel : Nat) (l : List α) (f nx : Nat) (sw : Bool),
      (innerPass gt fuel l f nx sw).1.length = l.length := by
  intro fuel
  induction fuel with
  | zero =>
    intro l f nx sw
    rw [innerPass]
  | succ fuel ih =>
    intro l f nx sw
    rw [innerPass]
    by_cases h : nx < l.length
    · rw [if_pos h]
      by_cases hgt : gt (l.getD f default) (l.getD nx default) = true
      · rw [if_pos hgt, ih]
        simp [exchSwap]
      · rw [if_neg hgt]
        exact ih l f (nx + 1) sw
    · rw [if_neg h]

/- ===== order properties of the sort comparator ===== -/

/-- Unfolding equation for `charListLtB` on two cons cells. -/
theorem charListLtB_cons (x y : Char) (as bs : List Char) :
    charListLtB (x :: as) (y :: bs) =
      if x < y then true else if y < x then false else charListLtB as bs := rfl

/-- `charListLtB` is transitive. -/
theorem charListLtB_trans (a : List Char) : ∀ (b c : List Char),
    charListLtB a b = true → charListLtB b c = true → charListLtB a c = true := by
  induction a with
  | nil =>
    intro b c h1 h2
    cases b with
    | nil => simp [charListLtB] at h1
    | cons y bs =>
      cases c with
      | nil => simp [charListLtB] at h2
      | cons z cs => simp [charListLtB]
  | cons x as ih =>
    intro b c h1 h2
    cases b with
    | nil => simp [charListLtB] at h1
    | cons y bs =>
      cases c with
      | nil => simp [charListLtB] at h2
      | cons z cs =>
        rw [charListLtB_cons] at h1 h2 ⊢
        by_cases hxy : x < y
        · by_cases hyz : y < z
          · rw [if_pos (lt_trans hxy hyz)]
          · rw [if_pos hxy] at h1
            by_cases hzy : z < y
            · rw [if_neg hyz, if_pos hzy] at h2
              exact absurd h2 (by simp)
            · have hyz2 : y = z := le_antisymm (not_lt.mp hzy) (not_lt.mp hyz)
              rw [if_pos (hyz2 ▸ hxy)]
        · by_cases hyx : y < x
          · rw [if_neg hxy, if_pos hyx] at h1
            exact absurd h1 (by simp)
          · have hxy2 : x = y := le_antisymm (not_lt.mp hyx) (not_lt.mp hxy)
            rw [if_neg hxy, if_neg hyx] at h1
            by_cases hyz : y < z
            · rw [if_pos (hxy2 ▸ hyz)]
            · by_cases hzy : z < y
              · rw [if_neg hyz, if_pos hzy] at h2
                exact absurd h2 (by simp)
              · rw [if_neg hyz, if_neg hzy] at h2
                rw [if_neg (hxy2 ▸ hyz), if_neg (hxy2 ▸ hzy)]
                exact ih bs cs h1 h2

/-- `charListLtB` is asymmetric. -/
theorem charListLtB_asymm (a : List Char) : ∀ (b : List Char),
    charListLtB a b = true → charListLtB b a = false := by
  induction a with
  | nil =>
    intro b h1
    cases b with
    | nil => simp [charListLtB] at h1
    | cons y bs => simp [charListLtB]
  | cons x as ih =>
    intro b h1
    cases b with
    | nil => simp [charListLtB] at h1
    | cons y bs =>
      rw [charListLtB_cons] at h1 ⊢
      by_cases hxy : x < y
      · rw [if_neg (lt_asymm hxy), if_pos hxy]
      · by_cases hyx : y < x
        · rw [if_neg hxy, if_pos hyx] at h1
          exact absurd h1 (by simp)
        · rw [if_neg hxy, if_neg hyx] at h1
          rw [if_neg hyx, if_neg hxy]
          exact ih bs h1

/-- `charListLtB` is connex: distinct lists compare one way or the other. -/
theorem charListLtB_connex (a : List Char) : ∀ (b : List Char), a ≠ b →
    charListLtB a b = true ∨ charListLtB b a = true := by
  induction a with
  | nil =>
    intro b hne
    cases b with
    | nil => exact absurd rfl hne
    | cons y bs => exact Or.inl rfl
  | cons x as ih =>
    intro b hne
    cases b with
    | nil => exact Or.inr rfl
    | cons y bs =>
      rw [charListLtB_cons, charListLtB_cons]
      by_cases hxy : x < y
      · exact Or.inl (by rw [if_pos hxy])
      · by_cases hyx : y < x
        · exact Or.inr (by rw [if_pos hyx])
        · have hxy2 : x = y := le_antisymm (not_lt.mp hyx) (not_lt.mp hxy)
          have hne2 : as ≠ bs := by
            intro h
            exact hne (by rw [hxy2, h])
          rw [if_neg hxy, if_neg hyx, if_neg (hxy2 ▸ hyx), if_neg (hxy2 ▸ hxy)]
          exact ih bs hne2

/-- Strings are equal when their character data is. -/
theorem strData_inj (s t : String) (h : s.data = t.data) : s = t := by
  cases s
  cases t
  exact congrArg String.mk h

/-- `strLtB` is transitive. -/
theorem strLtB_trans (a b c : String) (h1 : strLtB a b = true) (h2 : strLtB b c = true) :
    strLtB a c = true :=
  charListLtB_trans a.data b.data c.data h1 h2

/-- `strLtB` is asymmetric. -/
theorem strLtB_asymm (a b : String) (h1 : strLtB a b = true) : strLtB b a = false :=
  charListLtB_asymm a.data b.data h1

/-- `strLtB` is connex. -/
theorem strLtB_connex (a b : String) (hne : a ≠ b) :
    strLtB a b = true ∨ strLtB b a = true :=
  charListLtB_connex a.data b.data (fun h => hne (strData_inj a b h))

/-- `strLtB` is irreflexive. -/
theorem strLtB_irrefl (a : String) : strLtB a a = false := by
  cases h : strLtB a a with
  | false => rfl
  | true => exact absurd (h ▸ strLtB_asymm a a h) (by simp)

/-- `lexGt` is transitive. -/
theorem lexGt_trans (L : List (SortOption × Bool)) : ∀ (a b c : SortPart),
    lexGt L a b = true → lexGt L b c = true → lexGt L a c = true := by
  induction L with
  | nil => intro a b c h1; simp [lexGt] at h1
  | cons hd rest ih =>
    intro a b c h1 h2
    obtain ⟨o, asc⟩ := hd
    rw [lexGt] at h1 h2 ⊢
    by_cases e1 : sortValue o a = sortValue o b
    · rw [if_pos e1] at h1
      by_cases e2 : sortValue o b = sortValue o c
      · rw [if_pos e2] at h2
        rw [if_pos (e1.trans e2)]
        exact ih a b c h1 h2
      · rw [if_neg e2] at h2
        rw [if_neg (e1 ▸ e2), e1]
        exact h2
    · rw [if_neg e1] at h1
      by_cases e2 : sortValue o b = sortValue o c
      · rw [if_pos e2] at h2
        rw [if_neg (fun h => e1 (h.trans e2.symm)), ← e2]
        exact h1
      · rw [if_neg e2] at h2
        cases asc with
        | true =>
          simp only [if_true] at h1 h2 ⊢
          have h3 := strLtB_trans _ _ _ h2 h1
          have hne : sortValue o a ≠ sortValue o c := by
            intro h
            rw [h] at h3
            exact absurd h3 (by rw [strLtB_irrefl]; simp)
          rw [if_neg hne]
          exact h3
        | false =>
          simp only [Bool.false_eq_true, if_false] at h1 h2 ⊢
          have h3 := strLtB_trans _ _ _ h1 h2
          have hne : sortValue o a ≠ sortValue o c := by
            intro h
            rw [h] at h3
            exact absurd h3 (by rw [strLtB_irrefl]; simp)
          rw [if_neg hne]
          exact h3

/-- `lexGt` is asymmetric. -/
theorem lexGt_asymm (L : List (SortOption × Bool)) : ∀ (a b : SortPart),
    lexGt L a b = true → lexGt L b a = false := by
  induction L with
  | nil => intro a b h1; simp [lexGt] at h1
  | cons hd rest ih =>
    intro a b h1
    obtain ⟨o, asc⟩ := hd
    rw [lexGt] at h1 ⊢
    by_cases e1 : sortValue o a = sortValue o b
    · rw [if_pos e1] at h1
      rw [if_pos e1.symm]
      exact ih a b h1
    · rw [if_neg e1] at h1
      rw [if_neg (fun h => e1 h.symm)]
      cases asc with
      | true =>
        simp only [if_true] at h1 ⊢
        exact strLtB_asymm _ _ h1
      | false =>
        simp only [Bool.false_eq_true, if_false] at h1 ⊢
        exact strLtB_asymm _ _ h1

/-- For a fully configured sort order (three pairwise distinct options,
none the `NoSort` sentinel, not in split mode) the swap decision is the
three-level lexicographic comparison. -/
theorem swapQ_eq_lexGt3 (cfg : SortConfig)
    (hP : cfg.primary ≠ SortOption.NoSortOpt)
    (hS : cfg.secondary ≠ SortOption.NoSortOpt)
    (hT : cfg.tertiary ≠ SortOption.NoSortOpt)
    (hSP : cfg.secondary ≠ cfg.primary)
    (hTP : cfg.tertiary ≠ cfg.primary)
    (hTS : cfg.tertiary ≠ cfg.secondary) (a b : SortPart) :
    swapQ cfg false a b =
      lexGt [(cfg.primary, cfg.primaryAsc), (cfg.secondary, cfg.secondaryAsc),
        (cfg.tertiary, cfg.tertiaryAsc)] a b := by
  unfold swapQ
  simp only [if_pos hP, not_false_eq_true, List.contains_cons, List.contains_nil]
  by_cases hv1 : sortValue cfg.primary a = sortValue cfg.primary b
  · by_cases hv2 : sortValue cfg.secondary a = sortValue cfg.secondary b
    · by_cases hv3 : sortValue cfg.tertiary a = sortValue cfg.tertiary b
      · simp [lexGt, hv1, hv2, hv3, hS, hT, hSP, hTP, hTS, strLtB_irrefl,
          beq_iff_eq]
      · simp [lexGt, hv1, hv2, hv3, hS, hT, hSP, hTP, hTS, beq_iff_eq]
    · simp [lexGt, hv1, hv2, hS, hT, hSP, hTP, hTS, beq_iff_eq]
  · simp [lexGt, hv1, hS, hSP, hTP, hTS, hT, beq_iff_eq]

theorem crossCount_nil_left (gt : α → α → Bool) (ys : List α) :
    crossCount gt [] ys = 0 := rfl

theorem crossCount_cons_left (gt : α → α → Bool) (x : α) (xs ys : List α) :
    crossCount gt (x :: xs) ys = ys.countP (fun y => gt x y) + crossCount gt xs ys := by
  simp [crossCount]

theorem crossCount_cons_right (gt : α → α → Bool) (xs : List α) (y : α) (ys : List α) :
    crossCount gt xs (y :: ys) = xs.countP (fun x => gt x y) + crossCount gt xs ys := by
  induction xs with
  | nil => simp [crossCount]
  | cons x xs ih =>
    rw [crossCount_cons_left, List.countP_cons, ih, crossCount_cons_left,
      List.countP_cons]
    omega

theorem invCount_append (gt : α → α → Bool) (xs ys : List α) :
    invCount gt (xs ++ ys) = invCount gt xs + crossCount gt xs ys + invCount gt ys := by
  induction xs with
  | nil => simp [invCount, crossCount]
  | cons x xs ih =>
    rw [List.cons_append, invCount, ih, invCount, List.countP_append,
      crossCount_cons_left]
    omega

theorem invCount_cons (gt : α → α → Bool) (a : α) (t : List α) :
    invCount gt (a :: t) = t.countP (fun x => gt a x) + invCount gt t := rfl

/-- A transposition of a strictly `gt`-out-of-order pair lowers the
inversion count, provided `gt` is transitive and asymmetric. -/
theorem invCount_transposition (gt : α → α → Bool)
    (htrans : ∀ x y z, gt x y = true → gt y z = true → gt x z = true)
    (hasym : ∀ x y, gt x y = true → gt y x = false)
    (p m s : List α) (a b : α) (hab : gt a b = true) :
    invCount gt (p ++ (b :: (m ++ a :: s))) < invCount gt (p ++ (a :: (m ++ b :: s))) := by
  induction p with
  | cons c p ih =>
    rw [List.cons_append, List.cons_append, invCount_cons, invCount_cons]
    have hperm : List.Perm (p ++ (b :: (m ++ a :: s))) (p ++ (a :: (m ++ b :: s))) := by
      refine List.Perm.append_left p ?_
      have p1 : List.Perm (b :: (m ++ a :: s)) (b :: a :: (m ++ s)) :=
        List.Perm.cons b List.perm_middle
      have p2 : List.Perm (b :: a :: (m ++ s)) (a :: b :: (m ++ s)) :=
        List.Perm.swap a b _
      have p3 : List.Perm (a :: (m ++ b :: s)) (a :: b :: (m ++ s)) :=
        List.Perm.cons a List.perm_middle
      exact (p1.trans p2).trans p3.symm
    rw [List.Perm.countP_eq _ hperm]
    exact Nat.add_lt_add_left ih _
  | nil =>
    rw [List.nil_append, List.nil_append, invCount_cons, invCount_cons,
      invCount_append, invCount_append, invCount_cons, invCount_cons,
      List.countP_append, List.countP_append, List.countP_cons, List.countP_cons,
      crossCount_cons_right, crossCount_cons_right]
    have e1 : gt a b = true := hab
    have e2 : gt b a = false := hasym a b hab
    have le1 : m.countP (fun y => gt b y) ≤ m.countP (fun y => gt a y) :=
      List.countP_mono_left (fun c _ h => htrans a b c hab h)
    have le2 : m.countP (fun x => gt x a) ≤ m.countP (fun x => gt x b) :=
      List.countP_mono_left (fun c _ h => htrans c a b h hab)
    simp only [e1, e2, Bool.false_eq_true, if_true, if_false]
    omega

/-- Decomposition of a list around two positions `f < nx`. -/
theorem list_two_split [Inhabited α] (l : List α) (f nx : Nat) (hf : f < nx)
    (hnx : nx < l.length) :
    l = l.take f ++ (l.getD f default ::
      ((l.drop (f + 1)).take (nx - f - 1) ++ l.getD nx default :: l.drop (nx + 1))) := by
  have hfl : f < l.length := lt_trans hf hnx
  have ha : l.getD f default = l[f] := by
    simp [List.getElem?_eq_getElem hfl]
  have hb : l.getD nx default = l[nx] := by
    simp [List.getElem?_eq_getElem hnx]
  rw [ha, hb]
  conv_lhs => rw [← List.take_append_drop f l]
  congr 1
  rw [List.drop_eq_getElem_cons hfl]
  congr 1
  conv_lhs => rw [← List.take_append_drop (nx - f - 1) (l.drop (f + 1))]
  congr 1
  rw [List.drop_drop]
  have e1 : f + 1 + (nx - f - 1) = nx := by omega
  rw [e1, List.drop_eq_getElem_cons hnx]

/-- The swap of the entries at `f < nx` in the decomposed view. -/
theorem exchSwap_decomp [Inhabited α] (l : List α) (f nx : Nat) (hf : f < nx)
    (hnx : nx < l.length) :
    exchSwap l f nx = l.take f ++ (l.getD nx default ::
      ((l.drop (f + 1)).take (nx - f - 1) ++ l.getD f default :: l.drop (nx + 1))) := by
  have hfl : f < l.length := lt_trans hf hnx
  rw [exchSwap, List.set_eq_take_cons_drop _ hfl]
  have hlen : (l.take f).length = f := by
    rw [List.length_take]
    omega
  rw [List.set_append_right _ _ (by omega : (l.take f).length ≤ nx)]
  congr 1
  have e2 : nx - (l.take f).length = (nx - f - 1) + 1 := by omega
  rw [e2, List.set_cons_succ]
  congr 1
  have hdx : nx - f - 1 < (l.drop (f + 1)).length := by
    rw [List.length_drop]
    omega
  rw [List.set_eq_take_cons_drop _ hdx, List.drop_drop]
  have e3 : f + 1 + (nx - f - 1 + 1) = nx + 1 := by omega
  rw [e3]

/-- A swap the comparator demands strictly lowers the inversion count. -/
theorem invCount_exchSwap_lt [Inhabited α] (gt : α → α → Bool)
    (htrans : ∀ x y z, gt x y = true → gt y z = true → gt x z = true)
    (hasym : ∀ x y, gt x y = true → gt y x = false)
    (l : List α) (f nx : Nat) (hf : f < nx) (hnx : nx < l.length)
    (hgt : gt (l.getD f default) (l.getD nx default) = true) :
    invCount gt (exchSwap l f nx) < invCount gt l := by
  conv_rhs => rw [list_two_split l f nx hf hnx]
  rw [exchSwap_decomp l f nx hf hnx]
  exact invCount_transposition gt htrans hasym _ _ _ _ _ hgt

/-- Combined behaviour of the inner loop: the inversion count never grows;
a run that reports no swap left the list untouched (and saw none before
it); a run that turns the flag on strictly lowers the inversion count. -/
theorem innerPass_spec [Inhabited α] (gt : α → α → Bool)
    (htrans : ∀ x y z, gt x y = true → gt y z = true → gt x z = true)
    (hasym : ∀ x y, gt x y = true → gt y x = false) :
    ∀ (fuel : Nat) (l : List α) (f nx : Nat) (sw : Bool), f < nx →
      invCount gt (innerPass gt fuel l f nx sw).1 ≤ invCount gt l ∧
      ((innerPass gt fuel l f nx sw).2 = false →
        (innerPass gt fuel l f nx sw).1 = l ∧ sw = false) ∧
      (sw = false → (innerPass gt fuel l f nx sw).2 = true →
        invCount gt (innerPass gt fuel l f nx sw).1 < invCount gt l) := by
  intro fuel
  induction fuel with
  | zero =>
    intro l f nx sw hf
    rw [innerPass]
    exact ⟨le_refl _, fun h2 => ⟨rfl, h2⟩, fun h1 h2 => absurd (h1 ▸ h2) (by simp)⟩
  | succ fuel ih =>
    intro l f nx sw hf
    rw [innerPass]
    by_cases h : nx < l.length
    · rw [if_pos h]
      by_cases hgt : gt (l.getD f default) (l.getD nx default) = true
      · rw [if_pos hgt]
        have hlt : invCount gt (exchSwap l f nx) < invCount gt l :=
          invCount_exchSwap_lt gt htrans hasym l f nx hf h hgt
        have ih2 := ih (exchSwap l f nx) f (nx + 1) true (by omega)
        refine ⟨le_trans ih2.1 (le_of_lt hlt), ?_, ?_⟩
        · intro hfalse
          exact absurd (ih2.2.1 hfalse).2 (by simp)
        · intro _ _
          exact lt_of_le_of_lt ih2.1 hlt
      · rw [if_neg hgt]
        exact ih l f (nx + 1) sw (by omega)
    · rw [if_neg h]
      exact ⟨le_refl _, fun h2 => ⟨rfl, h2⟩, fun h1 h2 => absurd (h1 ▸ h2) (by simp)⟩

/-- Combined behaviour of the outer loop. -/
theorem outerPass_spec [Inhabited α] (gt : α → α → Bool)
    (htrans : ∀ x y z, gt x y = true → gt y z = true → gt x z = true)
    (hasym : ∀ x y, gt x y = true → gt y x = false) :
    ∀ (fuel : Nat) (l : List α) (f : Nat) (sw : Bool),
    invCount gt (outerPass gt fuel l f sw).1 ≤ invCount gt l ∧
    ((outerPass gt fuel l f sw).2 = false → (outerPass gt fuel l f sw).1 = l ∧ sw = false) ∧
    (sw = false → (outerPass gt fuel l f sw).2 = true →
      invCount gt (outerPass gt fuel l f sw).1 < invCount gt l) := by
  intro fuel
  induction fuel with
  | zero =>
    intro l f sw
    rw [outerPass]
    exact ⟨le_refl _, fun h2 => ⟨rfl, h2⟩, fun h1 h2 => absurd (h1 ▸ h2) (by simp)⟩
  | succ fuel ih =>
    intro l f sw
    rw [outerPass]
    by_cases h : f + 1 < l.length
    · rw [if_pos h]
      have hin := innerPass_spec gt htrans hasym l.length l f (f + 1) sw (by omega)
      have iho := ih (innerPass gt l.length l f (f + 1) sw).1 (f + 1)
        (innerPass gt l.length l f (f + 1) sw).2
      refine ⟨le_trans iho.1 hin.1, ?_, ?_⟩
      · intro hfalse
        have h2 := iho.2.1 hfalse
        have h3 := hin.2.1 h2.2
        exact ⟨h2.1.trans h3.1, h3.2⟩
      · intro hsw htrue
        rcases Bool.eq_false_or_eq_true (innerPass gt l.length l f (f + 1) sw).2 with h2 | h2
        · exact lt_of_le_of_lt iho.1 (hin.2.2 hsw h2)
        · have h3 := hin.2.1 h2
          have h4 := iho.2.2 h2 htrue
          exact lt_of_lt_of_le h4 (le_of_eq (by rw [h3.1]))
    · rw [if_neg h]
      exact ⟨le_refl _, fun h2 => ⟨rfl, h2⟩, fun h1 h2 => absurd (h1 ▸ h2) (by simp)⟩

/-- A no-swap inner run leaves the list untouched and certifies that the
`firstPart` entry is not out of order with any later entry. -/
theorem innerPass_nosw [Inhabited α] (gt : α → α → Bool) :
    ∀ (fuel : Nat) (l : List α) (f nx : Nat) (sw : Bool), l.length ≤ nx + fuel →
    (innerPass gt fuel l f nx sw).2 = false →
      (innerPass gt fuel l f nx sw).1 = l ∧ sw = false ∧
      ∀ j, nx ≤ j → j < l.length → gt (l.getD f default) (l.getD j default) = false := by
  intro fuel
  induction fuel with
  | zero =>
    intro l f nx sw hlen
    rw [innerPass]
    intro hfalse
    exact ⟨rfl, hfalse, fun j hj1 hj2 => absurd hj2 (by omega)⟩
  | succ fuel ih =>
    intro l f nx sw hlen
    rw [innerPass]
    by_cases h : nx < l.length
    · rw [if_pos h]
      by_cases hgt : gt (l.getD f default) (l.getD nx default) = true
      · rw [if_pos hgt]
        intro hfalse
        have hlen2 : (exchSwap l f nx).length ≤ (nx + 1) + fuel := by
          simp only [exchSwap, List.length_set]
          omega
        exact absurd (ih (exchSwap l f nx) f (nx + 1) true hlen2 hfalse).2.1 (by simp)
      · rw [if_neg hgt]
        intro hfalse
        obtain ⟨h1, h2, h3⟩ := ih l f (nx + 1) sw (by omega) hfalse
        refine ⟨h1, h2, ?_⟩
        intro j hj1 hj2
        rcases Nat.eq_or_lt_of_le hj1 with he | hlt
        · rw [← he]
          simpa using hgt
        · exact h3 j hlt hj2
    · rw [if_neg h]
      intro hfalse
      exact ⟨rfl, hfalse, fun j hj1 hj2 => absurd (lt_of_le_of_lt hj1 hj2) h⟩

/-- A no-swap full pass leaves the list untouched and certifies that no
pair of positions is out of order. -/
theorem outerPass_nosw [Inhabited α] (gt : α → α → Bool) :
    ∀ (fuel : Nat) (l : List α) (f : Nat) (sw : Bool), l.length ≤ f + fuel →
    (outerPass gt fuel l f sw).2 = false → (outerPass gt fuel l f sw).1 = l ∧ sw = false ∧
      ∀ i j, f ≤ i → i < j → j < l.length →
        gt (l.getD i default) (l.getD j default) = false := by
  intro fuel
  induction fuel with
  | zero =>
    intro l f sw hlen
    rw [outerPass]
    intro hfalse
    exact ⟨rfl, hfalse, fun i j hfi hij hjl => absurd rfl
      (by omega : ¬(0 : Nat) = 0)⟩
  | succ fuel ih =>
    intro l f sw hlen
    rw [outerPass]
    by_cases h : f + 1 < l.length
    · rw [if_pos h]
      intro hfalse
      have hlen2 : (innerPass gt l.length l f (f + 1) sw).1.length ≤ (f + 1) + fuel := by
        rw [innerPass_length]
        omega
      obtain ⟨o1, o2, o3⟩ := ih (innerPass gt l.length l f (f + 1) sw).1 (f + 1)
        (innerPass gt l.length l f (f + 1) sw).2 hlen2 hfalse
      obtain ⟨i1, i2, i3⟩ := innerPass_nosw gt l.length l f (f + 1) sw (by omega) o2
      rw [i1] at o3
      refine ⟨o1.trans i1, i2, ?_⟩
      intro i j hfi hij hjl
      rcases Nat.eq_or_lt_of_le hfi with he | hlt
      · rw [← he]
        exact i3 j (by omega) hjl
      · exact o3 i j (by omega) hij hjl
    · rw [if_neg h]
      intro hfalse
      exact ⟨rfl, hfalse, fun i j hfi hij hjl => absurd (by omega : f + 1 < l.length) h⟩

/-- With enough passes the loop reaches a fixpoint: one more pass performs
no swap. -/
theorem sortLoopN_fixpoint [Inhabited α] (gt : α → α → Bool)
    (htrans : ∀ x y z, gt x y = true → gt y z = true → gt x z = true)
    (hasym : ∀ x y, gt x y = true → gt y x = false) :
    ∀ (fuel : Nat) (l : List α), invCount gt l < fuel →
      (passOnce gt (sortLoopN gt fuel l)).2 = false := by
  intro fuel
  induction fuel with
  | zero => intro l h; omega
  | succ fuel ih =>
    intro l hlt
    rw [sortLoopN]
    by_cases hsw : (passOnce gt l).2 = true
    · rw [if_pos hsw]
      apply ih
      have hdec := (outerPass_spec gt htrans hasym l.length l 0 false).2.2 rfl hsw
      simp only [passOnce] at hdec ⊢
      omega
    · have h2 : (passOnce gt l).2 = false := by simpa using hsw
      rw [if_neg hsw]
      have h3 := outerPass_nosw gt l.length l 0 false (by omega) h2
      simp only [passOnce] at h3 ⊢
      rw [h3.1]
      exact h2

/-- After `sortParts` finishes, no position pair is out of order for the
swap comparator (fully configured sort order). -/
theorem sortPartsModel_pairwise (cfg : SortConfig)
    (hP : cfg.primary ≠ SortOption.NoSortOpt)
    (hS : cfg.secondary ≠ SortOption.NoSortOpt)
    (hT : cfg.tertiary ≠ SortOption.NoSortOpt)
    (hSP : cfg.secondary ≠ cfg.primary)
    (hTP : cfg.tertiary ≠ cfg.primary)
    (hTS : cfg.tertiary ≠ cfg.secondary) (l : List SortPart) :
    ∀ i j, i < j → j < (sortPartsModel cfg false l).length →
      swapQ cfg false ((sortPartsModel cfg false l).getD i default)
        ((sortPartsModel cfg false l).getD j default) = false := by
  have htrans : ∀ x y z, swapQ cfg false x y = true → swapQ cfg false y z = true →
      swapQ cfg false x z = true := by
    intro x y z h1 h2
    rw [swapQ_eq_lexGt3 cfg hP hS hT hSP hTP hTS] at h1 h2 ⊢
    exact lexGt_trans _ x y z h1 h2
  have hasym : ∀ x y, swapQ cfg false x y = true → swapQ cfg false y x = false := by
    intro x y h1
    rw [swapQ_eq_lexGt3 cfg hP hS hT hSP hTP hTS] at h1 ⊢
    exact lexGt_asymm _ x y h1
  have hfix := sortLoopN_fixpoint (swapQ cfg false) htrans hasym
    (invCount (swapQ cfg false) l + 1) l (by omega)
  have hfix2 : (outerPass (swapQ cfg false) (sortPartsModel cfg false l).length
      (sortPartsModel cfg false l) 0 false).2 = false := by
    simpa [passOnce, sortPartsModel] using hfix
  have h3 := outerPass_nosw (swapQ cfg false) (sortPartsModel cfg false l).length
    (sortPartsModel cfg false l) 0 false (by omega) hfix2
  intro i j hij hjl
  exact h3.2.2 i j (Nat.zero_le i) hij hjl

theorem sortParts_tertiary_helper (cfg : SortConfig)
    (hP : cfg.primary ≠ SortOption.NoSortOpt)
    (hS : cfg.secondary ≠ SortOption.NoSortOpt)
    (hT : cfg.tertiary ≠ SortOption.NoSortOpt)
    (hSP : cfg.secondary ≠ cfg.primary)
    (hTP : cfg.tertiary ≠ cfg.primary)
    (hTS : cfg.tertiary ≠ cfg.secondary) (a b : SortPart)
    (hswap : swapQ cfg false a b = false)
    (hprim : sortValue cfg.primary a = sortValue cfg.primary b)
    (hsec : sortValue cfg.secondary a = sortValue cfg.secondary b)
    (htert : sortValue cfg.tertiary a ≠ sortValue cfg.tertiary b) :
    (if cfg.tertiaryAsc then strLtB (sortValue cfg.tertiary a) (sortValue cfg.tertiary b)
      else strLtB (sortValue cfg.tertiary b) (sortValue cfg.tertiary a)) = true := by
  rw [swapQ_eq_lexGt3 cfg hP hS hT hSP hTP hTS] at hswap
  rw [lexGt, if_pos hprim, lexGt, if_pos hsec, lexGt, if_neg htert] at hswap
  cases hta : cfg.tertiaryAsc with
  | true =>
    rw [hta] at hswap
    simp only [if_true] at hswap ⊢
    rcases strLtB_connex _ _ htert with hc | hc
    · exact hc
    · exact absurd hc (by rw [hswap]; simp)
  | false =>
    rw [hta] at hswap
    simp only [Bool.false_eq_true, if_false] at hswap ⊢
    rcases strLtB_connex _ _ (fun h => htert h.symm) with hc | hc
    · exact hc
    · exact absurd hc (by rw [hswap]; simp)

set_option maxHeartbeats 1000000 in
/-- A failing `BackgroundMeta::parseCore` leaves the leaf untouched: every
failure branch returns the incoming state. -/
theorem bg_parseCore_fail (m : BackgroundMeta) (argv : List String) (index : Nat) :
    (m.parseCore argv index).1 ≠ OkRc → (m.parseCore argv index).2 = m := by
  simp only [BackgroundMeta.parseCore]
  split_ifs <;> intro h <;> first | rfl | exact absurd rfl h

/-- `setHereActive` writes the slot `hereActive` reads. -/
theorem bg_setHere_hereActive (m : BackgroundMeta) (w : SrcWhere) :
    (m.setHereActive w).hereActive = w := by
  unfold BackgroundMeta.setHereActive BackgroundMeta.hereActive
  by_cases h : m.pushed <;> simp [h]

/-- Reading back a just-written entry. -/
theorem getD_set_self [Inhabited α] (l : List α) (i : Nat) (a : α) (h : i < l.length) :
    (l.set i a).getD i default = a := by
  simp [List.getD_eq_getElem?_getD, List.getElem?_set, h]

/-- Reading another entry after a write. -/
theorem getD_set_ne [Inhabited α] (l : List α) (i j : Nat) (a : α) (h : i ≠ j) :
    (l.set i a).getD j default = l.getD j default := by
  simp [List.getD_eq_getElem?_getD, List.getElem?_set, h]

/-- A write that preserves a projection of the overwritten entry preserves
that projection of every entry. -/
theorem getD_set_proj [Inhabited α] (F : α → γ) (l : List α) (i : Nat) (a : α)
    (h : F a = F (l.getD i default)) (k : Nat) :
    F ((l.set i a).getD k default) = F (l.getD k default) := by
  by_cases hik : i = k
  · subst hik
    by_cases hlt : i < l.length
    · rw [getD_set_self l i a hlt, h]
    · rw [List.set_eq_of_length_le (by omega)]
  · rw [getD_set_ne l i k a hik]

/-- A fold of projection-preserving writes preserves the projection. -/
theorem foldl_set_proj [Inhabited α] (F : α → γ) (f : List α → β → List α)
    (hf : ∀ ps b k, F ((f ps b).getD k default) = F (ps.getD k default)) (l : List β) :
    ∀ (ps : List α) (k : Nat), F ((l.foldl f ps).getD k default) = F (ps.getD k default) := by
  induction l with
  | nil => intro ps k; rfl
  | cons b t ih =>
    intro ps k
    rw [List.foldl_cons, ih (f ps b) k, hf]

/-- A fold of pointwise-property-preserving writes preserves the property. -/
theorem foldl_set_prop [Inhabited α] (P : α → Prop) (f : List α → β → List α)
    (hf : ∀ ps b k, P (ps.getD k default) → P ((f ps b).getD k default)) (l : List β) :
    ∀ (ps : List α) (k : Nat), P (ps.getD k default) → P ((l.foldl f ps).getD k default) := by
  induction l with
  | nil => intro ps k h; exact h
  | cons b t ih =>
    intro ps k h
    rw [List.foldl_cons]
    exact ih (f ps b) k (hf ps b k h)

/-- An in-range `getD` is a member. -/
theorem mem_of_getD (l : List Nat) (i : Nat) (h : i < l.length) : l.getD i 0 ∈ l := by
  rw [List.getD_eq_getElem?_getD, List.getElem?_eq_getElem h]
  exact List.getElem_mem h

/-- Flipping one entry of a duplicate-free list from `false` to `true`
raises `countP` by one. -/
theorem countP_flip (l : List Nat) (q q2 : Nat → Bool) (a : Nat)
    (hnd : l.Nodup) (ha : a ∈ l) (hqa : q a = false) (hq2a : q2 a = true)
    (hother : ∀ x ∈ l, x ≠ a → q2 x = q x) :
    l.countP q2 = l.countP q + 1 := by
  induction l with
  | nil => cases ha
  | cons b t ih =>
    rw [List.countP_cons, List.countP_cons]
    rcases List.mem_cons.mp ha with hb | hm
    · subst hb
      have ht : ∀ x ∈ t, q2 x = q x := by
        intro x hx
        exact hother x (List.mem_cons_of_mem _ hx) (fun he => (List.nodup_cons.mp hnd).1 (he ▸ hx))
      have hcc : t.countP q2 = t.countP q := List.countP_congr (fun x hx => by rw [ht x hx])
      rw [hcc, hqa, hq2a]
      simp
    · have hba : b ≠ a := fun he => (List.nodup_cons.mp hnd).1 (he ▸ hm)
      rw [ih (List.nodup_cons.mp hnd).2 hm
        (fun x hx hxa => hother x (List.mem_cons_of_mem _ hx) hxa),
        hother b (List.mem_cons_self b t) hba]
      omega

/-- Flipping one entry of a duplicate-free list from `false` to `true`
adds that entry{'}s weight to the guarded sum. -/
theorem sumIf_flip (l : List Nat) (q q2 : Nat → Bool) (W W2 : Nat → Int) (a : Nat)
    (hnd : l.Nodup) (ha : a ∈ l) (hqa : q a = false) (hq2a : q2 a = true)
    (hother : ∀ x ∈ l, x ≠ a → q2 x = q x) (hW : ∀ x ∈ l, W2 x = W x) :
    (l.map (fun k => if q2 k then W2 k else 0)).sum =
      (l.map (fun k => if q k then W k else 0)).sum + W a := by
  induction l with
  | nil => cases ha
  | cons b t ih =>
    rw [List.map_cons, List.map_cons, List.sum_cons, List.sum_cons]
    rcases List.mem_cons.mp ha with hb | hm
    · subst hb
      have ht : ∀ x ∈ t, (if q2 x then W2 x else 0) = (if q x then W x else 0) := by
        intro x hx
        have hxa : x ≠ a := fun he => (List.nodup_cons.mp hnd).1 (he ▸ hx)
        rw [hother x (List.mem_cons_of_mem _ hx) hxa, hW x (List.mem_cons_of_mem _ hx)]
      rw [List.map_congr_left ht, hqa, hq2a, hW a (List.mem_cons_self a t)]
      simp
      ring
    · have hba : b ≠ a := fun he => (List.nodup_cons.mp hnd).1 (he ▸ hm)
      rw [ih (List.nodup_cons.mp hnd).2 hm
        (fun x hx hxa => hother x (List.mem_cons_of_mem _ hx) hxa)
        (fun x hx => hW x (List.mem_cons_of_mem _ hx)),
        hother b (List.mem_cons_self b t) hba, hW b (List.mem_cons_self b t)]
      ring

/-- The guarded width sum plus one unplaced weight stays below the total. -/
theorem sumIf_le_total (l : List Nat) (q : Nat → Bool) (W : Nat → Int) (a : Nat)
    (hnd : l.Nodup) (ha : a ∈ l) (hqa : q a = false) (hW : ∀ x ∈ l, 0 ≤ W x) :
    (l.map (fun k => if q k then W k else 0)).sum + W a ≤ (l.map W).sum := by
  induction l with
  | nil => cases ha
  | cons b t ih =>
    rw [List.map_cons, List.map_cons, List.sum_cons, List.sum_cons]
    rcases List.mem_cons.mp ha with hb | hm
    · subst hb
      rw [hqa]
      have : (t.map (fun k => if q k then W k else 0)).sum ≤ (t.map W).sum := by
        apply List.sum_le_sum
        intro x hx
        by_cases hq : q x = true
        · simp [hq]
        · simp only [Bool.not_eq_true] at hq
          simp [hq]
          exact hW x (List.mem_cons_of_mem _ (by simpa using hx))
      simp
      omega
    · have h1 : (if q b then W b else 0) ≤ W b := by
        by_cases hq : q b = true
        · simp [hq]
        · simp only [Bool.not_eq_true] at hq
          simp [hq]
          exact hW b (List.mem_cons_self b t)
      have h2 := ih (List.nodup_cons.mp hnd).2 hm (fun x hx => hW x (List.mem_cons_of_mem _ hx))
      omega

/-- Width component of a `pliDims` tie. -/
theorem width_of_dims {p q : PliPart} (h : pliDims p = pliDims q) : p.width = q.width :=
  congrArg (fun t => t.1) h

theorem height_of_dims {p q : PliPart} (h : pliDims p = pliDims q) : p.height = q.height :=
  congrArg (fun t => t.2.1) h

theorem topMargin_of_dims {p q : PliPart} (h : pliDims p = pliDims q) :
    p.topMargin = q.topMargin :=
  congrArg (fun t => t.2.2.1) h

theorem csiY_of_dims {p q : PliPart} (h : pliDims p = pliDims q) : p.csiY = q.csiY :=
  congrArg (fun t => t.2.2.2) h

/-- `placeInit` preserves the list length. -/
theorem placeInit_length (keys : List Nat) :
    ∀ (ps : List PliPart) (yC : Int), (placeInit ps keys yC).1.length = ps.length := by
  induction keys with
  | nil => intro ps yC; rfl
  | cons k t ih =>
    intro ps yC
    rw [placeInit, List.foldl_cons]
    have := ih (ps.set k { ps.getD k default with placed := false, kind := 0 })
      (if (ps.getD k default).height > yC then (ps.getD k default).height else yC)
    simp only [placeInit] at this
    rw [this, List.length_set]

/-- `placeInit` never writes the geometry fields. -/
theorem placeInit_dims (keys : List Nat) :
    ∀ (ps : List PliPart) (yC : Int) (k : Nat),
      pliDims ((placeInit ps keys yC).1.getD k default) = pliDims (ps.getD k default) := by
  induction keys with
  | nil => intro ps yC k; rfl
  | cons k0 t ih =>
    intro ps yC k
    rw [placeInit, List.foldl_cons]
    have h2 := ih (ps.set k0 { ps.getD k0 default with placed := false, kind := 0 })
      (if (ps.getD k0 default).height > yC then (ps.getD k0 default).height else yC) k
    simp only [placeInit] at h2
    rw [h2]
    exact getD_set_proj pliDims ps k0
      { ps.getD k0 default with placed := false, kind := 0 } rfl k

/-- `placeInit` preservation of an unplaced flag. -/
theorem placeInit_unplaced_pres (keys : List Nat) :
    ∀ (ps : List PliPart) (yC : Int) (k : Nat),
      (ps.getD k default).placed = false →
      ((placeInit ps keys yC).1.getD k default).placed = false := by
  induction keys with
  | nil => intro ps yC k h; exact h
  | cons k0 t ih =>
    intro ps yC k h
    rw [placeInit, List.foldl_cons]
    have h2 := ih (ps.set k0 { ps.getD k0 default with placed := false, kind := 0 })
      (if (ps.getD k0 default).height > yC then (ps.getD k0 default).height else yC) k
    simp only [placeInit] at h2
    apply h2
    by_cases hk : k0 = k
    · subst hk
      by_cases hlt : k0 < ps.length
      · rw [getD_set_self ps k0 _ hlt]
      · rw [List.set_eq_of_length_le (by omega)]
        exact h
    · rw [getD_set_ne ps k0 k _ hk]
      exact h

/-- After `placeInit` every key part is unplaced. -/
theorem placeInit_unplaced (keys : List Nat) :
    ∀ (ps : List PliPart) (yC : Int) (k : Nat), k ∈ keys →
      ((placeInit ps keys yC).1.getD k default).placed = false := by
  induction keys with
  | nil => intro ps yC k h; cases h
  | cons k0 t ih =>
    intro ps yC k hk
    rw [placeInit, List.foldl_cons]
    rcases List.mem_cons.mp hk with he | hm
    · subst he
      have h2 := placeInit_unplaced_pres t
        (ps.set k { ps.getD k default with placed := false, kind := 0 })
        (if (ps.getD k default).height > yC then (ps.getD k default).height else yC) k
      simp only [placeInit] at h2
      apply h2
      by_cases hlt : k < ps.length
      · rw [getD_set_self ps k _ hlt]
      · rw [List.set_eq_of_length_le (by omega), List.getD_eq_default _ _ (by omega)]
        rfl
    · have h2 := ih (ps.set k0 { ps.getD k0 default with placed := false, kind := 0 })
        (if (ps.getD k0 default).height > yC then (ps.getD k0 default).height else yC) k hm
      simp only [placeInit] at h2
      exact h2

/-- The `overlap` counter never exceeds the previous part{'}s height (or 1
when that height is degenerate). -/
theorem overlapFor_le (prev part : PliPart) (sm : Int) :
    overlapFor prev part sm ≤ max 1 prev.height := by
  unfold overlapFor
  cases hf : ((List.range (prev.height - 1).toNat).map (fun j => (j : Int) + 1)).find?
      (fun k => collisionAt prev part sm k) with
  | none =>
    by_cases h : prev.height ≤ 1
    · simp [h]
    · simp [h]
  | some k =>
    show k + 1 ≤ max 1 prev.height
    have hm := List.mem_of_find?_eq_some hf
    have hk1 : k ≤ ((prev.height - 1).toNat : Int) := by
      rw [List.mem_map] at hm
      obtain ⟨j, hj, he⟩ := hm
      simp at hj
      obtain ⟨a, ha, hae⟩ := hj
      omega
    have h2 : ((prev.height - 1).toNat : Int) ≤ max 1 prev.height - 1 := by
      rcases le_or_lt prev.height 1 with hle | hlt
      · rw [Int.toNat_of_nonpos (by omega)]
        omega
      · rw [Int.toNat_of_nonneg (by omega)]
        omega
    omega

/-- Bookkeeping for one placement write: flipping one unplaced key part to
placed (with untouched geometry) preserves lengths and geometry, raises the
placed count by one, adds the part{'}s width to the placed width sum, and
keeps every placed bottom offset non-negative when the new one is. -/
theorem set_invariants (ps : List PliPart) (keys : List Nat) (ki : Nat) (p2 : PliPart)
    (hnd : keys.Nodup) (hmem : ki ∈ keys) (hin : ki < ps.length)
    (hnp : (ps.getD ki default).placed = false)
    (hp2 : p2.placed = true)
    (hdim : pliDims p2 = pliDims (ps.getD ki default)) :
    (∀ k, pliDims ((ps.set ki p2).getD k default) = pliDims (ps.getD k default)) ∧
    (ps.set ki p2).length = ps.length ∧
    placedCount (ps.set ki p2) keys = placedCount ps keys + 1 ∧
    placedWidthSum (ps.set ki p2) keys = placedWidthSum ps keys + (ps.getD ki default).width ∧
    (0 ≤ p2.bot →
      (∀ k ∈ keys, (ps.getD k default).placed = true → 0 ≤ (ps.getD k default).bot) →
      ∀ k ∈ keys, ((ps.set ki p2).getD k default).placed = true →
        0 ≤ ((ps.set ki p2).getD k default).bot) := by
  refine ⟨fun k => getD_set_proj pliDims ps ki p2 hdim k, List.length_set ps ki p2, ?_, ?_, ?_⟩
  · unfold placedCount
    exact countP_flip keys _ _ ki hnd hmem hnp
      (by show ((ps.set ki p2).getD ki default).placed = true
          rw [getD_set_self ps ki p2 hin, hp2])
      (fun x hx hxa => by
        show ((ps.set ki p2).getD x default).placed = (ps.getD x default).placed
        rw [getD_set_ne ps ki x p2 (fun he => hxa he.symm)])
  · unfold placedWidthSum
    have := sumIf_flip keys (fun k => (ps.getD k default).placed)
      (fun k => ((ps.set ki p2).getD k default).placed)
      (fun k => (ps.getD k default).width)
      (fun k => ((ps.set ki p2).getD k default).width) ki hnd hmem hnp
      (by show ((ps.set ki p2).getD ki default).placed = true
          rw [getD_set_self ps ki p2 hin, hp2])
      (fun x hx hxa => by
        show ((ps.set ki p2).getD x default).placed = (ps.getD x default).placed
        rw [getD_set_ne ps ki x p2 (fun he => hxa he.symm)])
      (fun x hx => width_of_dims (getD_set_proj pliDims ps ki p2 hdim x))
    rw [this]
  · intro hb hold k hk hpl
    by_cases hke : k = ki
    · subst hke
      rw [getD_set_self ps k p2 hin]
      exact hb
    · rw [getD_set_ne ps ki k p2 (fun he => hke he.symm)] at hpl ⊢
      exact hold k hk hpl

/-- Partial correctness of the stacking loop: geometry and lengths are
preserved, the counter stays in step with the placed flags, and every
placed part keeps a non-negative bottom offset. -/
theorem stackLoop_safe (keys : List Nat) (cols left yC : Int) (srt : Bool)
    (hnd : keys.Nodup) :
    ∀ (fuel : Nat) (st sst : StackState),
      (∀ k ∈ keys, k < st.ps.length) →
      (∀ k ∈ keys, 1 ≤ (st.ps.getD k default).height) →
      (∀ k ∈ keys, 0 ≤ (st.ps.getD k default).topMargin) →
      (∀ k ∈ keys, 0 ≤ (st.ps.getD k default).csiY) →
      st.prevIdx ∈ keys →
      (st.ps.getD st.prevIdx default).height ≤ st.bot →
      (∀ k ∈ keys, (st.ps.getD k default).placed = true → 0 ≤ (st.ps.getD k default).bot) →
      st.nPlaced = placedCount st.ps keys →
      stackLoop keys cols left yC srt fuel st = some sst →
      (∀ k, pliDims (sst.ps.getD k default) = pliDims (st.ps.getD k default)) ∧
      sst.ps.length = st.ps.length ∧
      sst.nPlaced = placedCount sst.ps keys ∧
      st.nPlaced ≤ sst.nPlaced ∧
      (∀ k ∈ keys, (sst.ps.getD k default).placed = true → 0 ≤ (sst.ps.getD k default).bot) := by
  intro fuel
  induction fuel with
  | zero =>
    intro st sst hin hh hm hcy hpm hpb hbots hc h
    simp [stackLoop] at h
  | succ fuel ih =>
    intro st sst hin hh hm hcy hpm hpb hbots hc h
    rw [stackLoop] at h
    by_cases hg : st.nPlaced < st.ps.length
    · rw [if_pos hg] at h
      cases hsf : stackFind st.ps keys (st.ps.getD st.prevIdx default) st.bot yC with
      | none =>
        rw [hsf] at h
        cases h
        exact ⟨fun k => rfl, rfl, hc, le_refl _, hbots⟩
      | some i =>
        rw [hsf] at h
        have hi : i < keys.length := List.mem_range.mp (List.mem_of_find?_eq_some hsf)
        have hpred := List.find?_some hsf
        have hnp : (st.ps.getD (keys.getD i 0) default).placed = false := by
          simpa using ((Bool.and_eq_true _ _).mp hpred).1
        have hmem : keys.getD i 0 ∈ keys := mem_of_getD keys i hi
        have hsm : 0 ≤ max (st.ps.getD st.prevIdx default).topMargin
            (st.ps.getD (keys.getD i 0) default).csiY :=
          le_trans (hm _ hpm) (le_max_left _ _)
        have hov : overlapFor (st.ps.getD st.prevIdx default)
            (st.ps.getD (keys.getD i 0) default)
            (max (st.ps.getD st.prevIdx default).topMargin
              (st.ps.getD (keys.getD i 0) default).csiY) ≤ st.bot := by
          refine le_trans (overlapFor_le _ _ _) (le_trans ?_ hpb)
          have h1 := hh _ hpm
          omega
        have hbk : 0 ≤ st.bot + max (st.ps.getD st.prevIdx default).topMargin
            (st.ps.getD (keys.getD i 0) default).csiY -
            overlapFor (st.ps.getD st.prevIdx default)
              (st.ps.getD (keys.getD i 0) default)
              (max (st.ps.getD st.prevIdx default).topMargin
                (st.ps.getD (keys.getD i 0) default).csiY) := by
          omega
        have hsi := set_invariants st.ps keys (keys.getD i 0)
          { st.ps.getD (keys.getD i 0) default with
              left := left,
              bot := st.bot + max (st.ps.getD st.prevIdx default).topMargin
                  (st.ps.getD (keys.getD i 0) default).csiY -
                overlapFor (st.ps.getD st.prevIdx default)
                  (st.ps.getD (keys.getD i 0) default)
                  (max (st.ps.getD st.prevIdx default).topMargin
                    (st.ps.getD (keys.getD i 0) default).csiY),
              placed := true, col := cols, kind := 3 }
          hnd hmem (hin _ hmem) hnp rfl rfl
        obtain ⟨hd1, hl1, hc1, hw1, hb1⟩ := hsi
        obtain ⟨hd2, hl2, hc2, hn2, hb2⟩ := ih _ sst
          (fun k hk => by rw [hl1]; exact hin k hk)
          (fun k hk => by rw [height_of_dims (hd1 k)]; exact hh k hk)
          (fun k hk => by rw [topMargin_of_dims (hd1 k)]; exact hm k hk)
          (fun k hk => by rw [csiY_of_dims (hd1 k)]; exact hcy k hk)
          hmem
          (by rw [height_of_dims (hd1 (keys.getD i 0))]
              show (st.ps.getD (keys.getD i 0) default).height ≤
                st.bot + max (st.ps.getD st.prevIdx default).topMargin
                  (st.ps.getD (keys.getD i 0) default).csiY -
                overlapFor (st.ps.getD st.prevIdx default) (st.ps.getD (keys.getD i 0) default)
                  (max (st.ps.getD st.prevIdx default).topMargin
                    (st.ps.getD (keys.getD i 0) default).csiY) +
                ((st.ps.getD (keys.getD i 0) default).height +
                  max (st.ps.getD st.prevIdx default).topMargin
                    (st.ps.getD (keys.getD i 0) default).csiY)
              omega)
          (hb1 hbk hbots)
          (by rw [hc1, hc])
          h
        refine ⟨fun k => (hd2 k).trans (hd1 k), hl2.trans hl1, hc2, ?_, hb2⟩
        have h3 : st.nPlaced + 1 ≤ sst.nPlaced := hn2
        omega
    · rw [if_neg hg] at h
      cases h
      exact ⟨fun k => rfl, rfl, hc, le_refl _, hbots⟩

/-- With enough fuel the stacking loop returns. -/
theorem stackLoop_isSome (keys : List Nat) (cols left yC : Int) (srt : Bool) :
    ∀ (fuel : Nat) (st : StackState),
      st.ps.length < st.nPlaced + fuel → 1 ≤ fuel →
      (stackLoop keys cols left yC srt fuel st).isSome := by
  intro fuel
  induction fuel with
  | zero =>
    intro st hfuel hone
    omega
  | succ fuel ih =>
    intro st hfuel hone
    rw [stackLoop]
    by_cases hg : st.nPlaced < st.ps.length
    · rw [if_pos hg]
      cases hsf : stackFind st.ps keys (st.ps.getD st.prevIdx default) st.bot yC with
      | none => rfl
      | some i =>
        apply ih
        · show (st.ps.set _ _).length < st.nPlaced + 1 + fuel
          rw [List.length_set]
          omega
        · omega
    · rw [if_neg hg]
      rfl

/-- The stacking loop keeps the column width non-negative and `left` plus
the column width below the placed width sum (run form). -/
theorem stackLoop_width (keys : List Nat) (cols left yC : Int) (srt : Bool)
    (hnd : keys.Nodup) :
    ∀ (fuel : Nat) (st sst : StackState),
      (∀ k ∈ keys, k < st.ps.length) →
      (∀ k ∈ keys, 0 ≤ (st.ps.getD k default).width) →
      0 ≤ st.width →
      left + st.width ≤ placedWidthSum st.ps keys →
      st.nPlaced = placedCount st.ps keys →
      stackLoop keys cols left yC srt fuel st = some sst →
      (∀ k, pliDims (sst.ps.getD k default) = pliDims (st.ps.getD k default)) ∧
      sst.ps.length = st.ps.length ∧
      sst.nPlaced = placedCount sst.ps keys ∧
      st.nPlaced ≤ sst.nPlaced ∧
      0 ≤ sst.width ∧
      left + sst.width ≤ placedWidthSum sst.ps keys := by
  intro fuel
  induction fuel with
  | zero =>
    intro st sst hin hw h0w hwsum hc h
    simp [stackLoop] at h
  | succ fuel ih =>
    intro st sst hin hw h0w hwsum hc h
    rw [stackLoop] at h
    by_cases hg : st.nPlaced < st.ps.length
    · rw [if_pos hg] at h
      cases hsf : stackFind st.ps keys (st.ps.getD st.prevIdx default) st.bot yC with
      | none =>
        rw [hsf] at h
        cases h
        exact ⟨fun k => rfl, rfl, hc, le_refl _, h0w, hwsum⟩
      | some i =>
        rw [hsf] at h
        have hi : i < keys.length := List.mem_range.mp (List.mem_of_find?_eq_some hsf)
        have hpred := List.find?_some hsf
        have hnp : (st.ps.getD (keys.getD i 0) default).placed = false := by
          simpa using ((Bool.and_eq_true _ _).mp hpred).1
        have hmem : keys.getD i 0 ∈ keys := mem_of_getD keys i hi
        have hsi := set_invariants st.ps keys (keys.getD i 0)
          { st.ps.getD (keys.getD i 0) default with
              left := left,
              bot := st.bot + max (st.ps.getD st.prevIdx default).topMargin
                  (st.ps.getD (keys.getD i 0) default).csiY -
                overlapFor (st.ps.getD st.prevIdx default)
                  (st.ps.getD (keys.getD i 0) default)
                  (max (st.ps.getD st.prevIdx default).topMargin
                    (st.ps.getD (keys.getD i 0) default).csiY),
              placed := true, col := cols, kind := 3 }
          hnd hmem (hin _ hmem) hnp rfl rfl
        obtain ⟨hd1, hl1, hc1, hw1, hb1⟩ := hsi
        obtain ⟨hd2, hl2, hc2, hn2, h0w2, hwsum2⟩ := ih _ sst
          (fun k hk => by rw [hl1]; exact hin k hk)
          (fun k hk => by rw [width_of_dims (hd1 k)]; exact hw k hk)
          (by show 0 ≤ if srt = true ∧ (st.ps.getD (keys.getD i 0) default).width > st.width
                then (st.ps.getD (keys.getD i 0) default).width else st.width
              split_ifs with hgrow
              · exact hw _ hmem
              · exact h0w)
          (by show left + (if srt = true ∧ (st.ps.getD (keys.getD i 0) default).width > st.width
                then (st.ps.getD (keys.getD i 0) default).width else st.width) ≤
                placedWidthSum _ keys
              rw [hw1]
              have hwk := hw _ hmem
              split_ifs with hgrow
              · omega
              · omega)
          (by rw [hc1, hc])
          h
        refine ⟨fun k => (hd2 k).trans (hd1 k), hl2.trans hl1, hc2, ?_, h0w2, hwsum2⟩
        have h3 : st.nPlaced + 1 ≤ sst.nPlaced := hn2
        omega
    · rw [if_neg hg] at h
      cases h
      exact ⟨fun k => rfl, rfl, hc, le_refl _, h0w, hwsum⟩

/-- Invariant bookkeeping of the anchor placement. -/
theorem anchorSet_inv (ps : List PliPart) (keys : List Nat) (ai : Nat) (left cols1 : Int)
    (hnd : keys.Nodup) (hmem : ai ∈ keys) (hin : ai < ps.length)
    (hnp : (ps.getD ai default).placed = false) :
    (∀ k, pliDims ((anchorSet ps ai left cols1).getD k default) = pliDims (ps.getD k default)) ∧
    (anchorSet ps ai left cols1).length = ps.length ∧
    placedCount (anchorSet ps ai left cols1) keys = placedCount ps keys + 1 ∧
    placedWidthSum (anchorSet ps ai left cols1) keys =
      placedWidthSum ps keys + (ps.getD ai default).width ∧
    ((∀ k ∈ keys, (ps.getD k default).placed = true → 0 ≤ (ps.getD k default).bot) →
      ∀ k ∈ keys, ((anchorSet ps ai left cols1).getD k default).placed = true →
        0 ≤ ((anchorSet ps ai left cols1).getD k default).bot) := by
  unfold anchorSet
  have h := set_invariants ps keys ai
    { ps.getD ai default with left := left, bot := 0, placed := true, col := cols1, kind := 1 }
    hnd hmem hin hnp rfl rfl
  exact ⟨h.1, h.2.1, h.2.2.1, h.2.2.2.1, h.2.2.2.2 (le_refl 0)⟩

/-- Invariant bookkeeping of the under-the-anchor fit step. -/
theorem fitSet_inv (ps1 : List PliPart) (keys : List Nat) (a : PliPart) (left cols1 : Int)
    (nP lastIdx : Nat) (hnd : keys.Nodup)
    (hin : ∀ k ∈ keys, k < ps1.length)
    (hw : ∀ k ∈ keys, 0 ≤ (ps1.getD k default).width)
    (hc : nP + 1 = placedCount ps1 keys) :
    (∀ k, pliDims ((fitSet ps1 keys a left cols1 nP lastIdx).1.getD k default) =
      pliDims (ps1.getD k default)) ∧
    (fitSet ps1 keys a left cols1 nP lastIdx).1.length = ps1.length ∧
    (fitSet ps1 keys a left cols1 nP lastIdx).2.1 =
      placedCount (fitSet ps1 keys a left cols1 nP lastIdx).1 keys ∧
    nP + 1 ≤ (fitSet ps1 keys a left cols1 nP lastIdx).2.1 ∧
    placedWidthSum ps1 keys ≤
      placedWidthSum (fitSet ps1 keys a left cols1 nP lastIdx).1 keys ∧
    ((∀ k ∈ keys, (ps1.getD k default).placed = true → 0 ≤ (ps1.getD k default).bot) →
      ∀ k ∈ keys, ((fitSet ps1 keys a left cols1 nP lastIdx).1.getD k default).placed = true →
        0 ≤ ((fitSet ps1 keys a left cols1 nP lastIdx).1.getD k default).bot) := by
  cases hfs : fitsScan ps1 keys a with
  | none =>
    have hF : fitSet ps1 keys a left cols1 nP lastIdx = (ps1, nP + 1, lastIdx) := by
      unfold fitSet
      rw [hfs]
    rw [hF]
    exact ⟨fun k => rfl, rfl, hc, le_refl _, le_refl _, fun hb => hb⟩
  | some j =>
    have hj : j < keys.length := List.mem_range.mp (List.mem_of_find?_eq_some hfs)
    have hpred := List.find?_some hfs
    have hnpj : (ps1.getD (keys.getD j 0) default).placed = false := by
      simpa using ((Bool.and_eq_true _ _).mp hpred).1
    have hmemj : keys.getD j 0 ∈ keys := mem_of_getD keys j hj
    have hsi := set_invariants ps1 keys (keys.getD j 0)
      { ps1.getD (keys.getD j 0) default with
          left := left + a.width - (ps1.getD (keys.getD j 0) default).width, bot := 0,
          placed := true, col := cols1, kind := 2 }
      hnd hmemj (hin _ hmemj) hnpj rfl rfl
    have hF : fitSet ps1 keys a left cols1 nP lastIdx =
        (ps1.set (keys.getD j 0)
          { ps1.getD (keys.getD j 0) default with
              left := left + a.width - (ps1.getD (keys.getD j 0) default).width, bot := 0,
              placed := true, col := cols1, kind := 2 },
          nP + 2, keys.getD j 0) := by
      unfold fitSet
      rw [hfs]
    rw [hF]
    refine ⟨hsi.1, hsi.2.1, ?_, ?_, ?_, hsi.2.2.2.2 (le_refl 0)⟩
    · show nP + 2 = placedCount (ps1.set (keys.getD j 0) _) keys
      rw [hsi.2.2.1]
      omega
    · show nP + 1 ≤ nP + 2
      omega
    · show placedWidthSum ps1 keys ≤ placedWidthSum (ps1.set (keys.getD j 0) _) keys
      rw [hsi.2.2.2.1]
      have := hw _ hmemj
      omega

/-- Partial correctness of the column loop: geometry and lengths are
preserved, the counter stays in step with the placed flags, every placed
part keeps a non-negative bottom offset, the bottom margin stays
non-negative, and a `0` result code certifies that every key part was
placed. -/
theorem outerLoop_safe (keys : List Nat) (xC yC : Int) (cfg : PlaceCfg)
    (hnd : keys.Nodup) :
    ∀ (fuel : Nat) (st : ColState) (rc : Int) (fst : ColState),
      (∀ k ∈ keys, k < st.ps.length) →
      (∀ k ∈ keys, 1 ≤ (st.ps.getD k default).height) →
      (∀ k ∈ keys, 0 ≤ (st.ps.getD k default).topMargin) →
      (∀ k ∈ keys, 0 ≤ (st.ps.getD k default).csiY) →
      (∀ k ∈ keys, 0 ≤ (st.ps.getD k default).width) →
      (∀ k ∈ keys, (st.ps.getD k default).placed = true → 0 ≤ (st.ps.getD k default).bot) →
      st.nPlaced = placedCount st.ps keys →
      0 ≤ st.botM →
      outerLoop keys xC yC cfg fuel st = some (rc, fst) →
      (∀ k, pliDims (fst.ps.getD k default) = pliDims (st.ps.getD k default)) ∧
      fst.ps.length = st.ps.length ∧
      fst.nPlaced = placedCount fst.ps keys ∧
      (∀ k ∈ keys, (fst.ps.getD k default).placed = true → 0 ≤ (fst.ps.getD k default).bot) ∧
      0 ≤ fst.botM ∧
      (rc = 0 → keys.length ≤ fst.nPlaced) ∧ (rc = 0 ∨ rc = -1) := by
  intro fuel
  induction fuel with
  | zero =>
    intro st rc fst hin hh hm hcy hw hbots hc hbM h
    simp [outerLoop] at h
  | succ fuel ih =>
    intro st rc fst hin hh hm hcy hw hbots hc hbM h
    rw [outerLoop] at h
    by_cases hg : st.nPlaced < keys.length
    · rw [if_pos hg] at h
      cases hfa : findAnchor st.ps keys st.left xC with
      | none =>
        rw [hfa] at h
        cases h
        exact ⟨fun k => rfl, rfl, hc, hbots, hbM, fun h0 => absurd h0 (by norm_num), Or.inr rfl⟩
      | some i =>
        rw [hfa] at h
        simp only [] at h
        have hi : i < keys.length := List.mem_range.mp (List.mem_of_find?_eq_some hfa)
        have hpreda := List.find?_some hfa
        have hnpa : (st.ps.getD (keys.getD i 0) default).placed = false := by
          simpa using ((Bool.and_eq_true _ _).mp hpreda).1
        have hmema : keys.getD i 0 ∈ keys := mem_of_getD keys i hi
        have hA := anchorSet_inv st.ps keys (keys.getD i 0) st.left (st.cols + 1)
          hnd hmema (hin _ hmema) hnpa
        have hF := fitSet_inv (anchorSet st.ps (keys.getD i 0) st.left (st.cols + 1)) keys
          (st.ps.getD (keys.getD i 0) default) st.left (st.cols + 1) st.nPlaced
          (keys.getD (keys.length - 1) 0) hnd
          (fun k hk => by rw [hA.2.1]; exact hin k hk)
          (fun k hk => by rw [width_of_dims (hA.1 k)]; exact hw k hk)
          (by rw [hA.2.2.1, ← hc])
        cases hsl : stackLoop keys (st.cols + 1) st.left yC cfg.sortType (keys.length + 1)
            { ps := (fitSet (anchorSet st.ps (keys.getD i 0) st.left (st.cols + 1)) keys
                (st.ps.getD (keys.getD i 0) default) st.left (st.cols + 1) st.nPlaced
                (keys.getD (keys.length - 1) 0)).1,
              prevIdx := keys.getD i 0,
              bot := (st.ps.getD (keys.getD i 0) default).height,
              width := (st.ps.getD (keys.getD i 0) default).width,
              widest := i,
              margin1 := colM1 cfg (st.ps.getD (keys.getD i 0) default),
              nPlaced := (fitSet (anchorSet st.ps (keys.getD i 0) st.left (st.cols + 1)) keys
                (st.ps.getD (keys.getD i 0) default) st.left (st.cols + 1) st.nPlaced
                (keys.getD (keys.length - 1) 0)).2.1,
              tallest := max st.tallest (st.ps.getD (keys.getD i 0) default).height } with
        | none =>
          rw [hsl] at h
          cases h
        | some sst =>
          rw [hsl] at h
          have hS := stackLoop_safe keys (st.cols + 1) st.left yC cfg.sortType hnd
            (keys.length + 1) _ sst
            (fun k hk => by
              show k < (fitSet (anchorSet st.ps (keys.getD i 0) st.left (st.cols + 1)) keys
                (st.ps.getD (keys.getD i 0) default) st.left (st.cols + 1) st.nPlaced
                (keys.getD (keys.length - 1) 0)).1.length
              rw [hF.2.1, hA.2.1]
              exact hin k hk)
            (fun k hk => by
              rw [height_of_dims ((hF.1 k).trans (hA.1 k))]
              exact hh k hk)
            (fun k hk => by
              rw [topMargin_of_dims ((hF.1 k).trans (hA.1 k))]
              exact hm k hk)
            (fun k hk => by
              rw [csiY_of_dims ((hF.1 k).trans (hA.1 k))]
              exact hcy k hk)
            hmema
            (le_of_eq (height_of_dims ((hF.1 (keys.getD i 0)).trans (hA.1 (keys.getD i 0)))))
            (hF.2.2.2.2.2 (hA.2.2.2.2 hbots))
            hF.2.2.1
            hsl
          have hI := ih _ rc fst
            (fun k hk => by
              show k < sst.ps.length
              rw [hS.2.1, hF.2.1, hA.2.1]
              exact hin k hk)
            (fun k hk => by
              rw [height_of_dims (((hS.1 k).trans (hF.1 k)).trans (hA.1 k))]
              exact hh k hk)
            (fun k hk => by
              rw [topMargin_of_dims (((hS.1 k).trans (hF.1 k)).trans (hA.1 k))]
              exact hm k hk)
            (fun k hk => by
              rw [csiY_of_dims (((hS.1 k).trans (hF.1 k)).trans (hA.1 k))]
              exact hcy k hk)
            (fun k hk => by
              rw [width_of_dims (((hS.1 k).trans (hF.1 k)).trans (hA.1 k))]
              exact hw k hk)
            hS.2.2.2.2
            hS.2.2.1
            (by
              show 0 ≤ max st.botM (st.ps.getD (keys.getD i 0) default).csiY
              exact le_trans hbM (le_max_left _ _))
            h
          refine ⟨?_, ?_, hI.2.2.1, hI.2.2.2.1, hI.2.2.2.2.1, hI.2.2.2.2.2.1,
            hI.2.2.2.2.2.2⟩
          · intro k
            exact (hI.1 k).trans (((hS.1 k).trans (hF.1 k)).trans (hA.1 k))
          · rw [hI.2.1]
            show sst.ps.length = st.ps.length
            rw [hS.2.1, hF.2.1, hA.2.1]
    · rw [if_neg hg] at h
      cases h
      exact ⟨fun k => rfl, rfl, hc, hbots, hbM, fun h0 => by omega, Or.inl rfl⟩

/-- Key-part total width is a function of the geometry alone. -/
theorem keysWidthSum_congr (ps2 ps1 : List PliPart) (keys : List Nat)
    (h : ∀ k, pliDims (ps2.getD k default) = pliDims (ps1.getD k default)) :
    keysWidthSum ps2 keys = keysWidthSum ps1 keys := by
  unfold keysWidthSum
  exact congrArg List.sum (List.map_congr_left (fun k hk => width_of_dims (h k)))

/-- Total correctness of the column loop under the width headroom
condition: when the key parts{'} total width stays under the x-constraint,
the loop always terminates with result code `0` — whatever the height
constraint is. -/
theorem outerLoop_pack (keys : List Nat) (xC yC : Int) (cfg : PlaceCfg)
    (hnd : keys.Nodup) :
    ∀ (fuel : Nat) (st : ColState),
      (∀ k ∈ keys, k < st.ps.length) →
      (∀ k ∈ keys, 0 ≤ (st.ps.getD k default).width) →
      st.ps.length = keys.length →
      st.nPlaced = placedCount st.ps keys →
      st.left ≤ placedWidthSum st.ps keys →
      keysWidthSum st.ps keys < xC →
      keys.length < st.nPlaced + fuel → 1 ≤ fuel →
      ∃ fst, outerLoop keys xC yC cfg fuel st = some (0, fst) := by
  intro fuel
  induction fuel with
  | zero =>
    intro st hin hw hlen hc hleft htot hfuel hone
    omega
  | succ fuel ih =>
    intro st hin hw hlen hc hleft htot hfuel hone
    rw [outerLoop]
    by_cases hg : st.nPlaced < keys.length
    · rw [if_pos hg]
      have hex : ∃ a ∈ keys, (st.ps.getD a default).placed = false := by
        by_contra hno
        push_neg at hno
        have hall : placedCount st.ps keys = keys.length := by
          unfold placedCount
          rw [List.countP_eq_length]
          intro a ha
          cases hpl : (st.ps.getD a default).placed with
          | false => exact absurd hpl (hno a ha)
          | true => rfl
        omega
      obtain ⟨a0, ha0mem, ha0un⟩ := hex
      obtain ⟨i0, hi0, hgetk⟩ := List.getElem_of_mem ha0mem
      have hgeti0 : keys.getD i0 0 = a0 := by
        rw [List.getD_eq_getElem?_getD, List.getElem?_eq_getElem hi0, hgetk]
        rfl
      have hpred0 : (!(st.ps.getD (keys.getD i0 0) default).placed &&
          decide (st.left + (st.ps.getD (keys.getD i0 0) default).width < xC)) = true := by
        rw [hgeti0, ha0un]
        simp only [Bool.not_false, Bool.true_and, decide_eq_true_eq]
        have hst : (keys.map (fun k => if (st.ps.getD k default).placed
              then (st.ps.getD k default).width else 0)).sum +
              (st.ps.getD a0 default).width ≤
              (keys.map (fun k => (st.ps.getD k default).width)).sum :=
          sumIf_le_total keys (fun k => (st.ps.getD k default).placed)
            (fun k => (st.ps.getD k default).width) a0 hnd ha0mem ha0un
            (fun x hx => hw x hx)
        unfold placedWidthSum at hleft
        unfold keysWidthSum at htot
        omega
      have hfaS : (findAnchor st.ps keys st.left xC).isSome := by
        unfold findAnchor
        rw [List.find?_isSome]
        exact ⟨i0, List.mem_range.mpr hi0, hpred0⟩
      obtain ⟨i, hfae⟩ := Option.isSome_iff_exists.mp hfaS
      rw [hfae]
      simp only []
      have hi : i < keys.length := List.mem_range.mp (List.mem_of_find?_eq_some hfae)
      have hpreda := List.find?_some hfae
      have hnpa : (st.ps.getD (keys.getD i 0) default).placed = false := by
        simpa using ((Bool.and_eq_true _ _).mp hpreda).1
      have hmema : keys.getD i 0 ∈ keys := mem_of_getD keys i hi
      have hA := anchorSet_inv st.ps keys (keys.getD i 0) st.left (st.cols + 1)
        hnd hmema (hin _ hmema) hnpa
      have hF := fitSet_inv (anchorSet st.ps (keys.getD i 0) st.left (st.cols + 1)) keys
        (st.ps.getD (keys.getD i 0) default) st.left (st.cols + 1) st.nPlaced
        (keys.getD (keys.length - 1) 0) hnd
        (fun k hk => by rw [hA.2.1]; exact hin k hk)
        (fun k hk => by rw [width_of_dims (hA.1 k)]; exact hw k hk)
        (by rw [hA.2.2.1, ← hc])
      have hslS := stackLoop_isSome keys (st.cols + 1) st.left yC cfg.sortType
        (keys.length + 1)
        { ps := (fitSet (anchorSet st.ps (keys.getD i 0) st.left (st.cols + 1)) keys
            (st.ps.getD (keys.getD i 0) default) st.left (st.cols + 1) st.nPlaced
            (keys.getD (keys.length - 1) 0)).1,
          prevIdx := keys.getD i 0,
          bot := (st.ps.getD (keys.getD i 0) default).height,
          width := (st.ps.getD (keys.getD i 0) default).width,
          widest := i,
          margin1 := colM1 cfg (st.ps.getD (keys.getD i 0) default),
          nPlaced := (fitSet (anchorSet st.ps (keys.getD i 0) st.left (st.cols + 1)) keys
            (st.ps.getD (keys.getD i 0) default) st.left (st.cols + 1) st.nPlaced
            (keys.getD (keys.length - 1) 0)).2.1,
          tallest := max st.tallest (st.ps.getD (keys.getD i 0) default).height }
        (by show (fitSet (anchorSet st.ps (keys.getD i 0) st.left (st.cols + 1)) keys
              (st.ps.getD (keys.getD i 0) default) st.left (st.cols + 1) st.nPlaced
              (keys.getD (keys.length - 1) 0)).1.length <
              (fitSet (anchorSet st.ps (keys.getD i 0) st.left (st.cols + 1)) keys
                (st.ps.getD (keys.getD i 0) default) st.left (st.cols + 1) st.nPlaced
                (keys.getD (keys.length - 1) 0)).2.1 + (keys.length + 1)
            rw [hF.2.1, hA.2.1, hlen]
            omega)
        (by omega)
      obtain ⟨sst, hsl⟩ := Option.isSome_iff_exists.mp hslS
      rw [hsl]
      simp only []
      have hW := stackLoop_width keys (st.cols + 1) st.left yC cfg.sortType hnd
        (keys.length + 1) _ sst
        (fun k hk => by
          show k < (fitSet (anchorSet st.ps (keys.getD i 0) st.left (st.cols + 1)) keys
            (st.ps.getD (keys.getD i 0) default) st.left (st.cols + 1) st.nPlaced
            (keys.getD (keys.length - 1) 0)).1.length
          rw [hF.2.1, hA.2.1]
          exact hin k hk)
        (fun k hk => by
          rw [width_of_dims ((hF.1 k).trans (hA.1 k))]
          exact hw k hk)
        (hw _ hmema)
        (by show st.left + (st.ps.getD (keys.getD i 0) default).width ≤
              placedWidthSum (fitSet (anchorSet st.ps (keys.getD i 0) st.left (st.cols + 1))
                keys (st.ps.getD (keys.getD i 0) default) st.left (st.cols + 1) st.nPlaced
                (keys.getD (keys.length - 1) 0)).1 keys
            have h1 := hF.2.2.2.2.1
            rw [hA.2.2.2.1] at h1
            omega)
        hF.2.2.1
        hsl
      apply ih
      · intro k hk
        show k < sst.ps.length
        rw [hW.2.1, hF.2.1, hA.2.1]
        exact hin k hk
      · intro k hk
        rw [width_of_dims (((hW.1 k).trans (hF.1 k)).trans (hA.1 k))]
        exact hw k hk
      · show sst.ps.length = keys.length
        rw [hW.2.1, hF.2.1, hA.2.1, hlen]
      · exact hW.2.2.1
      · show st.left + sst.width ≤ placedWidthSum sst.ps keys
        exact hW.2.2.2.2.2
      · show keysWidthSum sst.ps keys < xC
        rw [keysWidthSum_congr sst.ps st.ps keys
          (fun k => ((hW.1 k).trans (hF.1 k)).trans (hA.1 k))]
        exact htot
      · show keys.length < sst.nPlaced + fuel
        have h1 : st.nPlaced + 1 ≤ (fitSet (anchorSet st.ps (keys.getD i 0) st.left
            (st.cols + 1)) keys (st.ps.getD (keys.getD i 0) default) st.left (st.cols + 1)
            st.nPlaced (keys.getD (keys.length - 1) 0)).2.1 := hF.2.2.2.1
        have h2 : (fitSet (anchorSet st.ps (keys.getD i 0) st.left (st.cols + 1)) keys
            (st.ps.getD (keys.getD i 0) default) st.left (st.cols + 1) st.nPlaced
            (keys.getD (keys.length - 1) 0)).2.1 ≤ sst.nPlaced := hW.2.2.2.1
        omega
      · omega
    · rw [if_neg hg]
      exact ⟨st, rfl⟩

/-- A fold of projection-preserving writes on the list component preserves
the projection (state-carrying form). -/
theorem foldl_fst_proj [Inhabited α] (F : α → γ) (f : (List α × σ) → β → (List α × σ))
    (hf : ∀ acc b k, F ((f acc b).1.getD k default) = F (acc.1.getD k default)) (l : List β) :
    ∀ (acc : List α × σ) (k : Nat),
      F ((l.foldl f acc).1.getD k default) = F (acc.1.getD k default) := by
  induction l with
  | nil => intro acc k; rfl
  | cons b t ih =>
    intro acc k
    rw [List.foldl_cons, ih (f acc b) k, hf]

/-- The margin post-processing moves parts horizontally only: the placed
flag and the bottom offset of every entry are untouched. -/
theorem applyColMargins_proj (F : PliPart → γ)
    (hF : ∀ (p : PliPart) (x : Int), F { p with left := x } = F p)
    (keys : List Nat) (bd : BorderPx) (margins : List (Int × Int))
    (ps : List PliPart) (w : Int) (k : Nat) :
    F ((applyColMargins keys bd margins ps w).1.getD k default) = F (ps.getD k default) := by
  unfold applyColMargins
  apply foldl_fst_proj
  intro acc b k2
  show F (((List.range acc.1.length).foldl _ acc.1).getD k2 default) = _
  apply foldl_set_proj
  intro ps3 i k3
  by_cases hcol : (ps3.getD (keys.getD i 0) default).col ≥ (b.1 : Int) + 1
  · rw [if_pos hcol]
    exact getD_set_proj F ps3 (keys.getD i 0) _ (hF _ _) k3
  · rw [if_neg hcol]

/- ===== claim theorems ===== -/

/-- C9 (counterexample): a successful `resizePli` can leave a part with a
negative `left` offset: in `partsInv` the under-the-anchor fit places a
wider part flush right of a narrower anchor, at `left = -3`, sticking out
of the box whose size the call reports. -/
theorem claim_C9_counterexample :
    (resizePliHeight partsInv [0, 1, 2] 4 (plainCfg true)).map
      (fun r => (r.lastRc, (r.ps.getD 1 default).placed, (r.ps.getD 1 default).left)) =
      some (0, true, -3) ∧
    (-3 : Int) < 0 :=
  ⟨by decide, by decide⟩

/-- C9 (amended): the vertical half of the invariant holds: after a
successful `placePli` run (result code 0) on sane parts — positive
heights, non-negative widths and margins, non-negative pixel border —
every key part is placed with a non-negative `bot` offset.  The horizontal
half (`left ≥ 0` and the box bounding every part) is refuted by the
counterexample. -/
theorem claim_C9_amended (ps0 : List PliPart) (keys : List Nat) (xC yC : Int)
    (cfg : PlaceCfg) (r : PlaceResult)
    (hnd : keys.Nodup)
    (hin : ∀ k ∈ keys, k < ps0.length)
    (hh : ∀ k ∈ keys, 1 ≤ (ps0.getD k default).height)
    (hm : ∀ k ∈ keys, 0 ≤ (ps0.getD k default).topMargin)
    (hcy : ∀ k ∈ keys, 0 ≤ (ps0.getD k default).csiY)
    (hwd : ∀ k ∈ keys, 0 ≤ (ps0.getD k default).width)
    (hbM : 0 ≤ (cfg.bd.margin1.add cfg.bd.thickness).trunc)
    (hr : placePli ps0 keys xC yC cfg = some r)
    (hrc : r.rc = 0) :
    ∀ k ∈ keys, (r.ps.getD k default).placed = true ∧ 0 ≤ (r.ps.getD k default).bot := by
  simp only [placePli] at hr
  cases hout : outerLoop keys xC (placeInit ps0 keys yC).2 cfg (keys.length + 1)
      { ps := (placeInit ps0 keys yC).1, left := 0, nPlaced := 0, tallest := 0,
        topM := (cfg.bd.margin1.add cfg.bd.thickness).trunc,
        botM := (cfg.bd.margin1.add cfg.bd.thickness).trunc, cols := 0, margins := [] } with
  | none =>
    rw [hout] at hr
    cases hr
  | some pair =>
    obtain ⟨rc0, fst⟩ := pair
    rw [hout] at hr
    simp only [] at hr
    have hsafe := outerLoop_safe keys xC (placeInit ps0 keys yC).2 cfg hnd
      (keys.length + 1) _ rc0 fst
      (fun k hk => by
        show k < (placeInit ps0 keys yC).1.length
        rw [placeInit_length]
        exact hin k hk)
      (fun k hk => by
        rw [height_of_dims (placeInit_dims keys ps0 yC k)]
        exact hh k hk)
      (fun k hk => by
        rw [topMargin_of_dims (placeInit_dims keys ps0 yC k)]
        exact hm k hk)
      (fun k hk => by
        rw [csiY_of_dims (placeInit_dims keys ps0 yC k)]
        exact hcy k hk)
      (fun k hk => by
        rw [width_of_dims (placeInit_dims keys ps0 yC k)]
        exact hwd k hk)
      (fun k hk hp => by
        rw [placeInit_unplaced keys ps0 yC k hk] at hp
        cases hp)
      (by show (0 : Nat) = placedCount (placeInit ps0 keys yC).1 keys
          symm
          unfold placedCount
          rw [List.countP_eq_zero]
          intro a ha
          rw [placeInit_unplaced keys ps0 yC a ha]
          simp)
      hbM
      hout
    by_cases h1 : rc0 = -1
    · rw [if_pos h1] at hr
      cases hr
      simp at hrc
    · rw [if_neg h1] at hr
      have hrc0 : rc0 = 0 := by
        rcases hsafe.2.2.2.2.2.2 with h2 | h2
        · exact h2
        · exact absurd h2 h1
      have hplall : ∀ k ∈ keys, (fst.ps.getD k default).placed = true := by
        have hle := hsafe.2.2.2.2.2.1 hrc0
        have hcnt := hsafe.2.2.1
        have hub : placedCount fst.ps keys ≤ keys.length := List.countP_le_length _
        have heq : placedCount fst.ps keys = keys.length := by omega
        unfold placedCount at heq
        exact fun k hk => List.countP_eq_length.mp heq k hk
      have hbots := hsafe.2.2.2.1
      have hbM2 := hsafe.2.2.2.2.1
      have hmarg : ∀ kk : Nat,
          ((applyColMargins keys cfg.bd fst.margins fst.ps fst.left).1.getD kk default).placed
            = (fst.ps.getD kk default).placed ∧
          ((applyColMargins keys cfg.bd fst.margins fst.ps fst.left).1.getD kk default).bot
            = (fst.ps.getD kk default).bot := by
        intro kk
        have h2 := applyColMargins_proj (fun p => (p.placed, p.bot)) (fun p x => rfl)
          keys cfg.bd fst.margins fst.ps fst.left kk
        exact ⟨congrArg Prod.fst h2, congrArg Prod.snd h2⟩
      have hstep : ∀ (ps3 : List PliPart) (b : Nat) (k3 : Nat),
          (fun p : PliPart => p.placed = true → 0 ≤ p.bot) (ps3.getD k3 default) →
          (fun p : PliPart => p.placed = true → 0 ≤ p.bot)
            (((fun (ps4 : List PliPart) (i : Nat) => ps4.set (keys.getD i 0)
              { ps4.getD (keys.getD i 0) default with
                  bot := (ps4.getD (keys.getD i 0) default).bot + fst.botM }) ps3 b).getD
              k3 default) := by
        intro ps3 b k3 hP2
        show ((ps3.set (keys.getD b 0)
            { ps3.getD (keys.getD b 0) default with
                bot := (ps3.getD (keys.getD b 0) default).bot + fst.botM }).getD k3
            default).placed = true →
          0 ≤ ((ps3.set (keys.getD b 0)
            { ps3.getD (keys.getD b 0) default with
                bot := (ps3.getD (keys.getD b 0) default).bot + fst.botM }).getD k3
            default).bot
        by_cases hk2 : keys.getD b 0 = k3
        · subst hk2
          by_cases hlt : keys.getD b 0 < ps3.length
          · rw [getD_set_self ps3 _ _ hlt]
            intro hpl
            have h3 := hP2 hpl
            show 0 ≤ (ps3.getD (keys.getD b 0) default).bot + fst.botM
            omega
          · rw [List.set_eq_of_length_le (by omega)]
            exact hP2
        · rw [getD_set_ne ps3 (keys.getD b 0) k3 _ hk2]
          exact hP2
      cases hr
      intro k hk
      have hamr1 : (((applyColMargins keys cfg.bd fst.margins fst.ps fst.left).1.getD k
          default).placed = true) := by
        rw [(hmarg k).1]
        exact hplall k hk
      have hamr2 : 0 ≤ ((applyColMargins keys cfg.bd fst.margins fst.ps fst.left).1.getD k
          default).bot := by
        rw [(hmarg k).2]
        exact hbots k hk (hplall k hk)
      have hfold_placed :
          (((List.range (applyColMargins keys cfg.bd fst.margins fst.ps fst.left).1.length).foldl
            (fun (ps4 : List PliPart) (i : Nat) => ps4.set (keys.getD i 0)
              { ps4.getD (keys.getD i 0) default with
                  bot := (ps4.getD (keys.getD i 0) default).bot + fst.botM })
            (applyColMargins keys cfg.bd fst.margins fst.ps fst.left).1).getD k
            default).placed =
          (((applyColMargins keys cfg.bd fst.margins fst.ps fst.left).1).getD k
            default).placed :=
        foldl_set_proj (fun p => p.placed)
          (fun (ps4 : List PliPart) (i : Nat) => ps4.set (keys.getD i 0)
            { ps4.getD (keys.getD i 0) default with
                bot := (ps4.getD (keys.getD i 0) default).bot + fst.botM })
          (by intro ps3 b k3
              apply getD_set_proj
              rfl)
          (List.range (applyColMargins keys cfg.bd fst.margins fst.ps fst.left).1.length)
          (applyColMargins keys cfg.bd fst.margins fst.ps fst.left).1 k
      have hfold_bot := foldl_set_prop (fun p : PliPart => p.placed = true → 0 ≤ p.bot)
        (fun (ps4 : List PliPart) (i : Nat) => ps4.set (keys.getD i 0)
          { ps4.getD (keys.getD i 0) default with
              bot := (ps4.getD (keys.getD i 0) default).bot + fst.botM })
        hstep
        (List.range (applyColMargins keys cfg.bd fst.margins fst.ps fst.left).1.length)
        (applyColMargins keys cfg.bd fst.margins fst.ps fst.left).1 k
        (fun hpl => by rw [(hmarg k).2]; exact hbots k hk (hplall k hk))
      exact ⟨hfold_placed.trans hamr1, hfold_bot (hfold_placed.trans hamr1)⟩

/-- C9 (amended) at a concrete successful run, read off at the second key
part. -/
theorem claim_C9_amended_witness :
    (((placePli partsMono [0, 1, 2] 4 4 (plainCfg true)).getD
      ⟨0, [], 0, 0, 0⟩).ps.getD 1 default).placed = true ∧
    0 ≤ (((placePli partsMono [0, 1, 2] 4 4 (plainCfg true)).getD
      ⟨0, [], 0, 0, 0⟩).ps.getD 1 default).bot :=
  claim_C9_amended partsMono [0, 1, 2] 4 4 (plainCfg true)
    ((placePli partsMono [0, 1, 2] 4 4 (plainCfg true)).getD ⟨0, [], 0, 0, 0⟩)
    (by decide) (by decide) (by decide) (by decide) (by decide) (by decide) (by decide)
    (by decide) (by decide) 1 (by decide)


/-- C2 (counterexample): packing feasibility is not monotone in the height
constraint: the three `partsMono` rectangles pack at height 4 (the 1×4
part's column admits a 2×3 under-fit neighbour) but fail at the laxer
height 5, where the greedy stacking commits to a layout that leaves the
last part with no column under the x-constraint. -/
theorem claim_C2_counterexample :
    (placePli partsMono [0, 1, 2] 4 4 (plainCfg true)).map (fun r => r.rc) = some 0 ∧
    (placePli partsMono [0, 1, 2] 4 5 (plainCfg true)).map (fun r => r.rc) = some (-1) ∧
    (4 : Int) < 5 :=
  ⟨by decide, by decide, by decide⟩

/-- C2 (amended): the failure sentinel is governed by the width constraint
alone: whenever the key parts{'} total width lies strictly below the
x-constraint, `placePli` succeeds at every height constraint — so under
that headroom condition feasibility is (trivially) monotone in the height;
without it, monotonicity fails (see the counterexample). -/
theorem claim_C2_amended (ps0 : List PliPart) (keys : List Nat) (xC yC : Int)
    (cfg : PlaceCfg)
    (hnd : keys.Nodup)
    (hin : ∀ k ∈ keys, k < ps0.length)
    (hlen : ps0.length = keys.length)
    (hw : ∀ k ∈ keys, 0 ≤ (ps0.getD k default).width)
    (htot : (keys.map (fun k => (ps0.getD k default).width)).sum < xC) :
    (placePli ps0 keys xC yC cfg).map (fun r => r.rc) = some 0 := by
  obtain ⟨fst, hout⟩ := outerLoop_pack keys xC (placeInit ps0 keys yC).2 cfg hnd
    (keys.length + 1)
    { ps := (placeInit ps0 keys yC).1, left := 0, nPlaced := 0, tallest := 0,
      topM := (cfg.bd.margin1.add cfg.bd.thickness).trunc,
      botM := (cfg.bd.margin1.add cfg.bd.thickness).trunc, cols := 0, margins := [] }
    (fun k hk => by
      show k < (placeInit ps0 keys yC).1.length
      rw [placeInit_length]
      exact hin k hk)
    (fun k hk => by
      rw [width_of_dims (placeInit_dims keys ps0 yC k)]
      exact hw k hk)
    (by show (placeInit ps0 keys yC).1.length = keys.length
        rw [placeInit_length]
        exact hlen)
    (by show (0 : Nat) = placedCount (placeInit ps0 keys yC).1 keys
        symm
        unfold placedCount
        rw [List.countP_eq_zero]
        intro a ha
        rw [placeInit_unplaced keys ps0 yC a ha]
        simp)
    (by show (0 : Int) ≤ placedWidthSum (placeInit ps0 keys yC).1 keys
        have hz : placedWidthSum (placeInit ps0 keys yC).1 keys = 0 := by
          unfold placedWidthSum
          apply List.sum_eq_zero
          intro x hx
          rw [List.mem_map] at hx
          obtain ⟨a, ha, he⟩ := hx
          rw [← he, placeInit_unplaced keys ps0 yC a ha]
          simp
        omega)
    (by show keysWidthSum (placeInit ps0 keys yC).1 keys < xC
        rw [keysWidthSum_congr _ ps0 keys (fun k => placeInit_dims keys ps0 yC k)]
        exact htot)
    (by omega)
    (by omega)
  simp only [placePli]
  rw [hout]
  norm_num

/-- C2 (amended) at a concrete input with width headroom. -/
theorem claim_C2_amended_witness :
    (placePli partsMono [0, 1, 2] 6 1 (plainCfg true)).map (fun r => r.rc) = some 0 :=
  claim_C2_amended partsMono [0, 1, 2] 6 1 (plainCfg true) (by decide) (by decide)
    (by decide) (by decide) (by decide)


/-- C1: `resizePli`'s Height branch makes a single `placePli` call, but the
advertised fallback to the Area strategy is dead code: on a part set whose
layout is infeasible at the given height, `placePli` reports `-1` (its `-2`
height-infeasibility return is commented out), the branch keeps the Height
constraint type and stores the garbage size `(0, 0)` — while the Area
strategy on the same parts produces a real layout with result code `0`. -/
theorem claim_C1_height_fallback_dead :
    (resizePliHeight partsWide [0, 1] 10 (plainCfg true)).map
      (fun r => (r.size0, r.size1, r.lastRc, r.typeOut)) =
      some (0, 0, -1, PliConstrain.PliConstrainHeight) ∧
    (resizePliArea partsWide [0, 1] (plainCfg true) 15).map
      (fun r => (r.size0, r.size1, r.lastRc)) = some (6000000, 18, 0) := by
  constructor
  · decide
  · decide

/-- C3: the round-trip `parse → format → parse` fails for the integer
leaf kind: `IntMeta::format` discards the result of `QString::arg`, so the
formatted directive tail carries no value token at all, and re-parsing the
tokenized tail returns `FailureRc` instead of reproducing the parsed value.
(Evaluated at the failing input: a successful parse of the token `5`.) -/
theorem claim_C3_int_roundtrip_broken :
    (intM0.parse ["5"] 0 w0).1 = OkRc ∧
    ((intM0.parse ["5"] 0 w0).2).value0 = 5 ∧
    (∀ (m : IntMeta) (l g : Bool), m.format l g = leafFormat m.preamble l g "") ∧
    tokenizeTail "" = [] ∧
    (((intM0.parse ["5"] 0 w0).2).parse (tokenizeTail "") 0 w0).1 = FailureRc :=
  ⟨by decide, by decide, fun m l g => rfl, rfl, by decide⟩

/-- C4 (counterexample): the token sequence `TOP LEFT PAGE INSIDE 0.1 0.2`
does not parse: the placement decode table has no
(`TOP`, `LEFT`, `INSIDE`) row, so `PlacementMeta::parse` returns
`FailureRc` and leaves the leaf unchanged, contradicting the claim that it
succeeds and decodes to a (Top, Left, PageType, Inside) entry. -/
theorem claim_C4_counterexample :
    placeM0.parse ["TOP", "LEFT", "PAGE", "INSIDE", "0.1", "0.2"] 0 w0 =
      (FailureRc, placeM0) ∧
    placementOptions.indexOf? ("TOP", "LEFT", "INSIDE") = none := by
  constructor
  · decide
  · decide

/-- C4 (amended): `TOP LEFT PAGE INSIDE 0.1 0.2` fails (no decode-table row
matches, since the justification collapse applies only to `CENTER`), while
the nearby sequence `TOP LEFT PAGE OUTSIDE 0.1 0.2` parses to decode-table
row 1 = (Top, Left, Outside) relative to `PageType`, storing offsets
`(0.1, 0.2)`. -/
theorem claim_C4_amended :
    (placeM0.parse ["TOP", "LEFT", "PAGE", "OUTSIDE", "0.1", "0.2"] 0 w0).1 = OkRc ∧
    ((placeM0.parse ["TOP", "LEFT", "PAGE", "OUTSIDE", "0.1", "0.2"] 0 w0).2).value0 =
      { placement := 1, justification := 7, relativeTo := 0, preposition := 1,
        rectPlacement := 1, offset0 := ⟨1, 1⟩, offset1 := ⟨2, 1⟩ } ∧
    ((placeM0.parse ["TOP", "LEFT", "PAGE", "OUTSIDE", "0.1", "0.2"] 0 w0).2).here0 = w0 ∧
    placementOptions.getD 1 ("", "", "") = ("TOP", "LEFT", "OUTSIDE") ∧
    placementDecode.getD 1 (0, 0, 0) = (1, 7, 1) := by
  refine ⟨by decide, by decide, by decide, by decide, by decide⟩

/-- C5 (counterexample): leaf parse atomicity fails for `BorderMeta::parse`:
on the failing token list `NONE FOO` (line style not an integer) the parse
returns `FailureRc` but has already overwritten the stored border type with
`BdrNone` (the fixture held a square border). -/
theorem claim_C5_counterexample :
    (borderM0.parse ["NONE", "FOO"] 0 w0).map (fun r => (r.1, r.2.valueActive.type)) =
      some (FailureRc, BdrType.BdrNone) ∧
    borderM0.valueActive.type = BdrType.BdrSquare ∧
    BdrType.BdrNone ≠ BdrType.BdrSquare := by
  refine ⟨by decide, by decide, by decide⟩

/-- C10: the claim says `BorderMeta::parse` returns a failure code without
reading past the end of the token list when `NONE` is the final token; the
code instead reads `argv[index+1]` out of bounds behind the vacuous guard
`argv.size() - index >= 1` (the model returns `none` for that read), while
one more token makes the same branch succeed. -/
theorem claim_C10_none_reads_out_of_bounds :
    borderM0.parse ["NONE"] 0 w0 = none ∧
    (borderM0.parse ["NONE", "1"] 0 w0).map Prod.fst = some OkRc := by
  constructor
  · decide
  · decide

/-- C5 (amended): leaf parse atomicity holds for `BackgroundMeta::parse`
(its branch body never writes before its final gate): a failure code
leaves the leaf exactly as it was, and success stores the source location
in the active slot — while `BorderMeta::parse` violates the same property
(see the counterexample). -/
theorem claim_C5_amended (m : BackgroundMeta) (argv : List String) (index : Nat)
    (here : SrcWhere) :
    ((m.parse argv index here).1 ≠ OkRc → (m.parse argv index here).2 = m) ∧
    ((m.parse argv index here).1 = OkRc → (m.parse argv index here).2.hereActive = here) := by
  by_cases h : (m.parseCore argv index).1 = OkRc
  · have e : m.parse argv index here =
        ((m.parseCore argv index).1, (m.parseCore argv index).2.setHereActive here) := by
      simp [BackgroundMeta.parse, h]
    rw [e]
    exact ⟨fun hne => absurd h hne, fun _ => bg_setHere_hereActive _ _⟩
  · have e : m.parse argv index here = (FailureRc, (m.parseCore argv index).2) := by
      simp [BackgroundMeta.parse, h]
    rw [e]
    constructor
    · intro _
      exact bg_parseCore_fail m argv index h
    · intro hOk
      simp at hOk

/-- C5 (amended) at a concrete failing and a concrete succeeding input. -/
theorem claim_C5_amended_witness :
    (bgM0.parse ["FOO", "BAR", "BAZ", "QUX"] 0 w0).2 = bgM0 ∧
    (bgM0.parse ["TRANSPARENT"] 0 w0).2.hereActive = w0 :=
  ⟨(claim_C5_amended bgM0 ["FOO", "BAR", "BAZ", "QUX"] 0 w0).1 (by decide),
   (claim_C5_amended bgM0 ["TRANSPARENT"] 0 w0).2 (by decide)⟩

/-- C6: scope stacking for the float leaf: a `<key> LOCAL <value>`
directive parses into the local override slot, leaving the default slot
untouched, and the active value resolves to the local one; a
`<key> GLOBAL <value>` directive stores into the default slot and raises
the global flag. -/
theorem claim_C6_scope_stacking (key s : String) (child : FloatMeta) (v : Dec)
    (here : SrcWhere)
    (hp : child.pushed = false)
    (hv : strToFloat s = some v)
    (hlo : Dec.ltB v child.vmin = false)
    (hhi : Dec.ltB child.vmax v = false) :
    ((branchParseFloat key child [key, "LOCAL", s] 0 here).1 = child.rc ∧
     (branchParseFloat key child [key, "LOCAL", s] 0 here).2.value0 = child.value0 ∧
     (branchParseFloat key child [key, "LOCAL", s] 0 here).2.value1 = v ∧
     (branchParseFloat key child [key, "LOCAL", s] 0 here).2.valueActive = v ∧
     (branchParseFloat key child [key, "LOCAL", s] 0 here).2.pushed = true) ∧
    ((branchParseFloat key child [key, "GLOBAL", s] 0 here).1 = child.rc ∧
     (branchParseFloat key child [key, "GLOBAL", s] 0 here).2.value0 = v ∧
     (branchParseFloat key child [key, "GLOBAL", s] 0 here).2.global = true ∧
     (branchParseFloat key child [key, "GLOBAL", s] 0 here).2.pushed = false) := by
  constructor
  · have e : branchParseFloat key child [key, "LOCAL", s] 0 here =
        FloatMeta.parse { child with pushed := true } [key, "LOCAL", s] 2 here := by
      simp [branchParseFloat]
    rw [e]
    simp [FloatMeta.parse, hv, hlo, hhi, FloatMeta.setValueActive, FloatMeta.setHereActive,
      FloatMeta.valueActive]
  · have e : branchParseFloat key child [key, "GLOBAL", s] 0 here =
        FloatMeta.parse { child with global := true } [key, "GLOBAL", s] 2 here := by
      simp [branchParseFloat]
    rw [e]
    simp [FloatMeta.parse, hv, hlo, hhi, FloatMeta.setValueActive, FloatMeta.setHereActive,
      FloatMeta.valueActive, hp]

/-- C6 at a concrete leaf and value token. -/
theorem claim_C6_witness :
    (branchParseFloat "SCALE" floatM0 ["SCALE", "LOCAL", "0.5"] 0 w0).2.value1 = ⟨5, 1⟩ ∧
    (branchParseFloat "SCALE" floatM0 ["SCALE", "LOCAL", "0.5"] 0 w0).2.value0 = floatM0.value0 ∧
    (branchParseFloat "SCALE" floatM0 ["SCALE", "GLOBAL", "0.5"] 0 w0).2.value0 = ⟨5, 1⟩ := by
  have h := claim_C6_scope_stacking "SCALE" "0.5" floatM0 ⟨5, 1⟩ w0 (by decide)
    (by decide) (by decide) (by decide)
  exact ⟨h.1.2.2.1, h.1.2.1, h.2.2.1⟩

/-- C7: the BOM split distributes ten keys over three BOM occurrences as
the consecutive blocks of sizes 3, 3 and 4 (the remainder block attached
to the last occurrence — the multiset of page sizes announced as {4,3,3}),
and the three pages concatenate back to the key list in order. -/
theorem claim_C7_bom_split (keys : List String) (h : keys.length = 10) :
    (bomPageKeys keys 3 1).length = 3 ∧ (bomPageKeys keys 3 2).length = 3 ∧
    (bomPageKeys keys 3 3).length = 4 ∧
    bomPageKeys keys 3 1 ++ (bomPageKeys keys 3 2 ++ bomPageKeys keys 3 3) = keys := by
  rcases keys with _ | ⟨a0, keys⟩
  · simp at h
  rcases keys with _ | ⟨a1, keys⟩
  · simp at h
  rcases keys with _ | ⟨a2, keys⟩
  · simp at h
  rcases keys with _ | ⟨a3, keys⟩
  · simp at h
  rcases keys with _ | ⟨a4, keys⟩
  · simp at h
  rcases keys with _ | ⟨a5, keys⟩
  · simp at h
  rcases keys with _ | ⟨a6, keys⟩
  · simp at h
  rcases keys with _ | ⟨a7, keys⟩
  · simp at h
  rcases keys with _ | ⟨a8, keys⟩
  · simp at h
  rcases keys with _ | ⟨a9, keys⟩
  · simp at h
  rcases keys with _ | ⟨a10, keys⟩
  · have hl : [a0, a1, a2, a3, a4, a5, a6, a7, a8, a9].length = 10 := rfl
    simp only [bomPageKeys]
    rw [hl]
    exact ⟨rfl, rfl, rfl, rfl⟩
  · simp only [List.length_cons, List.length_nil] at h
    omega

/-- C7 at ten concrete keys. -/
theorem claim_C7_witness :
    (bomPageKeys keys10 3 1).length = 3 ∧ (bomPageKeys keys10 3 2).length = 3 ∧
    (bomPageKeys keys10 3 3).length = 4 ∧
    bomPageKeys keys10 3 1 ++ (bomPageKeys keys10 3 2 ++ bomPageKeys keys10 3 3) = keys10 :=
  claim_C7_bom_split keys10 (by rfl)

/-- C8 (counterexample): the sort is not stable: `partsStab` holds `x`
before `y` with all three configured sort values equal, yet the exchange
sort emits `y` before `x` (the full output is `z, y, x`). -/
theorem claim_C8_counterexample :
    (sortPartsModel cfgCCS false partsStab).map (fun p => p.key) = ["z", "y", "x"] ∧
    (partsStab.map fun p => p.key) = ["x", "y", "z"] ∧
    sortValue cfgCCS.primary (partsStab.getD 0 default) =
      sortValue cfgCCS.primary (partsStab.getD 1 default) ∧
    sortValue cfgCCS.secondary (partsStab.getD 0 default) =
      sortValue cfgCCS.secondary (partsStab.getD 1 default) ∧
    sortValue cfgCCS.tertiary (partsStab.getD 0 default) =
      sortValue cfgCCS.tertiary (partsStab.getD 1 default) := by
  refine ⟨by decide, by decide, by decide, by decide, by decide⟩

/-- C8 (amended): the first half of the claim holds: in the sorted output
of a fully configured sort (three distinct levels, none `NoSort`), any two
parts agreeing on the primary and secondary values but not on the tertiary
one appear in the tertiary order (ascending or descending as configured).
The second half — preservation of the original order on full ties — is
refuted by the counterexample. -/
theorem claim_C8_amended (cfg : SortConfig)
    (hP : cfg.primary ≠ SortOption.NoSortOpt)
    (hS : cfg.secondary ≠ SortOption.NoSortOpt)
    (hT : cfg.tertiary ≠ SortOption.NoSortOpt)
    (hSP : cfg.secondary ≠ cfg.primary)
    (hTP : cfg.tertiary ≠ cfg.primary)
    (hTS : cfg.tertiary ≠ cfg.secondary) (l : List SortPart) :
    ∀ i j, i < j → j < (sortPartsModel cfg false l).length →
      sortValue cfg.primary ((sortPartsModel cfg false l).getD i default) =
        sortValue cfg.primary ((sortPartsModel cfg false l).getD j default) →
      sortValue cfg.secondary ((sortPartsModel cfg false l).getD i default) =
        sortValue cfg.secondary ((sortPartsModel cfg false l).getD j default) →
      sortValue cfg.tertiary ((sortPartsModel cfg false l).getD i default) ≠
        sortValue cfg.tertiary ((sortPartsModel cfg false l).getD j default) →
      (if cfg.tertiaryAsc then
        strLtB (sortValue cfg.tertiary ((sortPartsModel cfg false l).getD i default))
          (sortValue cfg.tertiary ((sortPartsModel cfg false l).getD j default))
       else
        strLtB (sortValue cfg.tertiary ((sortPartsModel cfg false l).getD j default))
          (sortValue cfg.tertiary ((sortPartsModel cfg false l).getD i default))) = true := by
  intro i j hij hjl hprim hsec htert
  exact sortParts_tertiary_helper cfg hP hS hT hSP hTP hTS _ _
    (sortPartsModel_pairwise cfg hP hS hT hSP hTP hTS l i j hij hjl) hprim hsec htert

/-- C8 (amended) at the concrete two-part input with a tertiary-only
difference. -/
theorem claim_C8_amended_witness :
    (if cfgCCS.tertiaryAsc then
      strLtB (sortValue cfgCCS.tertiary ((sortPartsModel cfgCCS false partsTert).getD 0 default))
        (sortValue cfgCCS.tertiary ((sortPartsModel cfgCCS false partsTert).getD 1 default))
     else
      strLtB (sortValue cfgCCS.tertiary ((sortPartsModel cfgCCS false partsTert).getD 1 default))
        (sortValue cfgCCS.tertiary ((sortPartsModel cfgCCS false partsTert).getD 0 default))) = true :=
  claim_C8_amended cfgCCS (by decide) (by decide) (by decide) (by decide) (by decide)
    (by decide) partsTert 0 1 (by decide) (by decide) (by decide) (by decide) (by decide)
